import Mathlib

/-!
Verification development for the dbus_mqtt bridge (src/dbus_mqtt.py).

The Python source is shallowly embedded below.  Python dictionaries are
modelled as insertion-ordered association lists (`dget`, `dset`, `ddel`
reproduce lookup, `d[k] = v` and `del d[k]` of an insertion-ordered dict:
an assignment to an existing key replaces the value in place and keeps the
key at its original position, as both `dict` and `collections.OrderedDict`
do in Python 3).  D-Bus values are modelled by the inductive type `V`;
`unwrap_dbus_value` and `wrap_dbus_value` are external marshalling
collaborators and are modelled as the identity on `V`.  The D-Bus itself
is an oracle (`Bus`) mapping a service name and object path to either a
value or a D-Bus error name; XML introspection results are likewise
returned by the oracle in already-parsed form (`Xml`).  Python exceptions
are made explicit: stateful handlers return a pair of the (possibly
partially mutated) state and an optional raised exception.
-/

namespace DbusMqtt

/-! ### Python string primitives

`pyStartsWith`, `pyEndsWith`, `pySplit`, `pySplitMax` and `pyIntOfString`
model `str.startswith`, `str.endswith`, `str.split` (with and without a
maxsplit argument) and `int(str)`. -/

def pyStartsWith (s pre : String) : Bool := pre.data.isPrefixOf s.data

def pyEndsWith (s suf : String) : Bool := suf.data.isSuffixOf s.data

def noSlash (s : String) : Bool := !(s.data.contains '/')

def splitChars (sep : Char) : List Char → List (List Char)
  | [] => [[]]
  | c :: cs =>
    if c == sep then [] :: splitChars sep cs
    else
      match splitChars sep cs with
      | [] => [[c]]
      | h :: t => (c :: h) :: t

def pySplit (s : String) (sep : Char) : List String := (splitChars sep s.data).map String.mk

def joinWith (sep : Char) : List String → String
  | [] => ""
  | [x] => x
  | x :: xs => x ++ String.mk [sep] ++ joinWith sep xs

def pySplitMax (s : String) (sep : Char) (maxsplit : Nat) : List String :=
  let parts := pySplit s sep
  if parts.length ≤ maxsplit + 1 then parts
  else parts.take maxsplit ++ [joinWith sep (parts.drop maxsplit)]

def digitsToNatGo (acc : Nat) : List Char → Option Nat
  | [] => some acc
  | c :: cs => if c.isDigit then digitsToNatGo (acc * 10 + (c.toNat - '0'.toNat)) cs else none

def digitsToNat : List Char → Option Nat
  | [] => none
  | cs => digitsToNatGo 0 cs

/-- `int(s)` on a Python string: optional surrounding whitespace, an
optional sign, then decimal digits; anything else raises `ValueError`
(modelled as `none`). -/
def pyIntOfString (s : String) : Option Int :=
  let cs := ((s.data.dropWhile Char.isWhitespace).reverse.dropWhile Char.isWhitespace).reverse
  match cs with
  | '-' :: rest => (digitsToNat rest).map (fun n => -(n : Int))
  | '+' :: rest => (digitsToNat rest).map (fun n => (n : Int))
  | rest => (digitsToNat rest).map (fun n => (n : Int))

/-! ### Insertion-ordered dictionaries as association lists -/

def dget {α : Type} : List (String × α) → String → Option α
  | [], _ => none
  | e :: d, k => if e.1 == k then some e.2 else dget d k

def dset {α : Type} (d : List (String × α)) (k : String) (v : α) : List (String × α) :=
  if (dget d k).isSome then
    d.map (fun e => if e.1 == k then (k, v) else e)
  else d ++ [(k, v)]

def ddel {α : Type} (d : List (String × α)) (k : String) : List (String × α) :=
  d.filter (fun e => !(e.1 == k))

def NodupKeys {α : Type} (d : List (String × α)) : Prop := (d.map Prod.fst).Nodup

/-! ### D-Bus values, XML introspection data, exceptions, the bus oracle -/

/-- Native values carried over the bus (after `unwrap_dbus_value`):
None, booleans, integers, strings, lists, and dictionaries keyed by
object paths (the result of `GetValue` on `/`). -/
inductive V where
  | vnull
  | vbool (b : Bool)
  | vint (n : Int)
  | vstr (s : String)
  | vlist (xs : List V)
  | vdict (entries : List (String × V))

/-- The parts of an `Introspect` XML document the code looks at: the
`name` attribute of each child `node` element and of each `interface`
element (an absent attribute is `none`). -/
structure Xml where
  nodes : List (Option String)
  ifaces : List (Option String)

/-- Python exceptions that the embedded code can raise.  `dbusErr` is a
`dbus.exceptions.DBusException` carrying its D-Bus error name. -/
inductive PyExc where
  | dbusErr (errorName : String)
  | typeError
  | valueError
  | keyError
  | indexError
  | attributeError
  | recursionError
  | genericExc (msg : String)

/-- The D-Bus, as an oracle: `GetValue` calls and `Introspect` calls per
(service, path), each either returning a result or raising a
`DBusException` with the given D-Bus error name. -/
structure Bus where
  getValue : String → String → Except String V
  introspectXml : String → String → Except String Xml

def errUnknownObject : String := "org.freedesktop.DBus.Error.UnknownObject"
def errUnknownMethod : String := "org.freedesktop.DBus.Error.UnknownMethod"
def errServiceUnknown : String := "org.freedesktop.DBus.Error.ServiceUnknown"
def errDisconnected : String := "org.freedesktop.DBus.Error.Disconnected"
def errNoReply : String := "org.freedesktop.DBus.Error.NoReply"

/-- The two D-Bus error names treated as "method absent" by the scan. -/
def unknownObjOrMethod (e : String) : Bool := e == errUnknownObject || e == errUnknownMethod

/-- The three D-Bus error names treated as transient by the scan's outer
exception handler. -/
def transientName (e : String) : Bool :=
  e == errServiceUnknown || e == errDisconnected || e == errNoReply

/-! ### The mutable state of a `DbusMqtt` instance -/

/-- The mutable tables of a `DbusMqtt` object.
`topics` is `self._topics` (uid = service + path, mapped to topic),
`values` is `self._values` (topic mapped to last seen value),
`services` is `self._services` (service_type/device_instance mapped to
full service name), `serviceIds` is `self._service_ids` (owner handle
mapped to full service name), `queue` is `self.queue` (topic mapped to
pending payload, where `some v` models the string
`json.dumps(dict(value=v))` and `none` models the `None` tombstone).
`socketWatch` is true when `self._socket_watch` is not `None`.
The timing fields `_last_queue_run` and the GLib timer are not part of
the state: the claims below quantify over drains rather than clock
readings. -/
structure St where
  systemId : String
  topics : List (String × String)
  values : List (String × V)
  services : List (String × String)
  serviceIds : List (String × String)
  queue : List (String × Option V)
  socketWatch : Bool

def initSt (sysId : String) : St :=
  { systemId := sysId, topics := [], values := [], services := [], serviceIds := [],
    queue := [], socketWatch := false }

/-! ### Embedding of the module-level definitions -/

/-- `ServicePrefix = 'com.victronenergy.'` (renamed: the original name is
unavailable here). -/
def ServicePrefixStr : String := "com.victronenergy."

/-- `blocked_items = {('vebus', u'/Interfaces/Mk2/Tunnel'), ('paygo', '/LVD/Threshold')}` -/
def blocked_items : List (String × String) :=
  [("vebus", "/Interfaces/Mk2/Tunnel"), ("paygo", "/LVD/Threshold")]

/-- The third dot-separated segment of a service name (total helper; see
`get_service_type` for the raising version used by the code). -/
def svcType (s : String) : String := ((pySplit s '.').get? 2).getD ""

/-- `get_service_type`: raises `Exception('No victron service')` unless
the name starts with the vendor prefix, then returns
`service_name.split('.')[2]`. -/
def get_service_type (serviceName : String) : Except PyExc String :=
  if pyStartsWith serviceName ServicePrefixStr then
    match (pySplit serviceName '.').get? 2 with
    | some t => .ok t
    | none => .error .indexError
  else .error (.genericExc "No victron service")

/-- `get_short_service_name(service, device_instance)` =
`'{}/{}'.format(get_service_type(service), device_instance)`. -/
def get_short_service_name (service : String) (deviceInstance : Int) : Except PyExc String :=
  (get_service_type service).map (fun ty => ty ++ "/" ++ toString deviceInstance)

/-- The topic string built by `_add_item`:
`'N/{}/{}/{}{}'.format(self._system_id, service_type, device_instance, path)`.
`device_instance` is interpolated verbatim (the code passes it sometimes
as an int, sometimes as a string; here it is already a string). -/
def mkTopic (sysId ty di path : String) : String :=
  "N/" ++ sysId ++ "/" ++ ty ++ "/" ++ di ++ path

/-- `_publish(topic, value)`: no-op while the MQTT socket watch is absent,
otherwise `self.queue[topic] = json.dumps(dict(value=value))`. -/
def publish (st : St) (topic : String) (value : V) : St :=
  if !st.socketWatch then st
  else { st with queue := dset st.queue topic (some value) }

/-- `_unpublish(topic)`: no-op while the socket watch is absent, never
unpublishes a topic ending in `/system/0/Serial`, otherwise
`self.queue[topic] = None`. -/
def unpublish (st : St) (topic : String) : St :=
  if !st.socketWatch then st
  else if pyEndsWith topic "/system/0/Serial" then st
  else { st with queue := dset st.queue topic none }

/-- `_publish_all`: publish the stored value of every topic, iterating the
topics in sorted order.  (`_publish` never touches `self._values`, so
reading `self._values[topic]` from the running state is the same as
reading it from the initial one.) -/
def insertSorted (x : String) : List String → List String
  | [] => [x]
  | y :: ys => if x < y then x :: y :: ys else y :: insertSorted x ys

def sortStrs (l : List String) : List String := l.foldr insertSorted []

def publishAll (st : St) : St :=
  (sortStrs (st.values.map Prod.fst)).foldl
    (fun s t =>
      match dget s.values t with
      | some v => publish s t v
      | none => s) st

/-- `_unpublish_all` iterates `self._values.iterkeys()`; under Python 3
(the interpreter named on the shebang line) a `dict` has no `iterkeys`
attribute, so the method raises `AttributeError` before touching
anything. -/
def unpublishAll (st : St) : St × Option PyExc := (st, some .attributeError)

/-- `_add_item(service, device_instance, path, value)`: normalize the path
to start with a slash, return the existing topic for the uid if there is
one, return `None` (no topic) for a blocked (service_type, path) pair,
otherwise install the new mirror entry and its value slot and return the
fresh topic. -/
def addItem (st : St) (service deviceInstance path : String) (value : V) :
    Except PyExc (St × Option String) :=
  let path' := if pyStartsWith path "/" then path else "/" ++ path
  let uid := service ++ path'
  match dget st.topics uid with
  | some r => .ok (st, some r)
  | none =>
    match get_service_type service with
    | .error e => .error e
    | .ok ty =>
      if (ty, path') ∈ blocked_items then .ok (st, none)
      else
        let topic := mkTopic st.systemId ty deviceInstance path'
        .ok ({ st with topics := dset st.topics uid topic,
                       values := dset st.values topic value }, some topic)

/-- `int(self._get_dbus_value(service, '/DeviceInstance'))` together with
its two inner exception handlers: an `UnknownObject`/`UnknownMethod`
D-Bus error or a `TypeError` from `int(...)` yields instance 0; any other
D-Bus error or a `ValueError` is re-raised. -/
def pyInt : V → Except PyExc Int
  | .vint n => .ok n
  | .vbool b => .ok (if b then 1 else 0)
  | .vstr s =>
    match pyIntOfString s with
    | some n => .ok n
    | none => .error .valueError
  | _ => .error .typeError

def diResolve (bus : Bus) (service : String) : Except PyExc Int :=
  match bus.getValue service "/DeviceInstance" with
  | .error e => if unknownObjOrMethod e then .ok 0 else .error (.dbusErr e)
  | .ok v =>
    match pyInt v with
    | .ok n => .ok n
    | .error .typeError => .ok 0
    | .error e => .error e

/-- The loop body of `_scan_dbus_service` over `items.items()`:
`v = unwrap_dbus_value(value); topic = self._add_item(...)`, then
`if publish and topic is not None: self._publish(topic, v)`. -/
def scanItems (service : String) (di : Int) (pub : Bool) :
    List (String × V) → St → St × Option PyExc
  | [], st => (st, none)
  | (path, v) :: rest, st =>
    match addItem st service (toString di) path v with
    | .error e => (st, some e)
    | .ok (st1, topicR) =>
      let st2 :=
        match topicR with
        | some t => if pub then publish st1 t v else st1
        | none => st1
      scanItems service di pub rest st2

/-- The leaf case of `_introspect`: for each `interface` element whose
name is `com.victronenergy.BusItem`, fetch the value, add the item and
optionally publish it.  Exceptions propagate (there is no handler inside
`_introspect`). -/
def introLeaf (bus : Bus) (service : String) (di : Int) (pub : Bool) (path : String) :
    List (Option String) → St → St × Option PyExc
  | [], st => (st, none)
  | ifname :: rest, st =>
    if ifname == some "com.victronenergy.BusItem" then
      match bus.getValue service path with
      | .error e => (st, some (.dbusErr e))
      | .ok v =>
        match addItem st service (toString di) path v with
        | .error e => (st, some e)
        | .ok (st1, topicR) =>
          let st2 :=
            match topicR with
            | some t => if pub then publish st1 t v else st1
            | none => st1
          introLeaf bus service di pub path rest st2
    else introLeaf bus service di pub path rest st

/-- The recursive case of `_introspect`: descend into each named child
node, joining the path with a slash; a raised exception stops the loop
and propagates. -/
def introKids (go : String → St → St × Option PyExc) (path : String) :
    List (Option String) → St → St × Option PyExc
  | [], st => (st, none)
  | name? :: rest, st =>
    match name? with
    | none => introKids go path rest st
    | some nm =>
      match go (if pyEndsWith path "/" then path ++ nm else path ++ "/" ++ nm) st with
      | (st1, some e) => (st1, some e)
      | (st1, none) => introKids go path rest st1

/-- `_introspect(service, device_instance, path, publish)`.  Python-level
recursion re-queries the bus at each child path; the `fuel` argument
bounds the recursion depth (exhaustion models `RecursionError`, which
none of the theorems below depend on). -/
def introspect (bus : Bus) (service : String) (di : Int) (pub : Bool) :
    Nat → String → St → St × Option PyExc
  | 0, _, st => (st, some .recursionError)
  | fuel + 1, path, st =>
    match bus.introspectXml service path with
    | .error e => (st, some (.dbusErr e))
    | .ok tree =>
      if tree.nodes.isEmpty then introLeaf bus service di pub path tree.ifaces st
      else introKids (fun p s => introspect bus service di pub fuel p s) path tree.nodes st

/-- The outer `except dbus.exceptions.DBusException` handler of
`_scan_dbus_service`: a transient error (`ServiceUnknown`,
`Disconnected`, `NoReply`) is logged and swallowed, anything else is
re-raised; non-D-Bus exceptions pass through it untouched. -/
def outerCatch : St × Option PyExc → St × Option PyExc
  | (st, some (.dbusErr e)) => if transientName e then (st, none) else (st, some (.dbusErr e))
  | r => r

/-- The second half of `_scan_dbus_service`'s body, after the service
record has been written: fetch the root item listing (falling back to XML
introspection on `UnknownObject`/`UnknownMethod`) and add every listed
item. -/
def scanListing (bus : Bus) (fuel : Nat) (service : String) (di : Int) (pub : Bool)
    (st1 : St) : St × Option PyExc :=
  match bus.getValue service "/" with
  | .error e =>
    if unknownObjOrMethod e then introspect bus service di pub fuel "/" st1
    else (st1, some (.dbusErr e))
  | .ok items =>
    match items with
    | .vdict kvs => scanItems service di pub kvs st1
    | _ => (st1, none)

/-- The body of `_scan_dbus_service` inside the outer try: resolve the
device instance, record the service under its short name, then list and
add the service's items. -/
def scanBody (bus : Bus) (fuel : Nat) (st : St) (service : String) (pub : Bool) :
    St × Option PyExc :=
  match diResolve bus service with
  | .error e => (st, some e)
  | .ok di =>
    match get_short_service_name service di with
    | .error e => (st, some e)
    | .ok short =>
      scanListing bus fuel service di pub
        { st with services := dset st.services short service }

/-- `_scan_dbus_service(service, publish)`. -/
def scanService (bus : Bus) (fuel : Nat) (st : St) (service : String) (pub : Bool) :
    St × Option PyExc :=
  outerCatch (scanBody bus fuel st service pub)

/-- The per-entry body of the teardown loop in `_dbus_name_owner_changed`:
for a uid starting with `name + '/'`, unpublish its topic and delete the
uid and the topic's value slot. -/
def teardownEntry (name : String) (s : St) (e : String × String) : St :=
  if pyStartsWith e.1 (name ++ "/") then
    let s1 := unpublish s e.2
    { s1 with topics := ddel s1.topics e.1, values := ddel s1.values e.2 }
  else s

/-- `_dbus_name_owner_changed(name, oldowner, newowner)`.  Names outside
the vendor prefix are ignored.  A non-empty `newowner` triggers a scan
with publishing and then registers the owner handle.  Otherwise a
non-empty `oldowner` triggers the teardown: tombstones and removal of the
service's mirror entries (iterating a snapshot of `self._topics.items()`),
then the two conditional deletions from `self._services` and
`self._service_ids` exactly as written in the source. -/
def nameOwnerChanged (bus : Bus) (fuel : Nat) (st : St) (name oldowner newowner : String) :
    St × Option PyExc :=
  if !pyStartsWith name ServicePrefixStr then (st, none)
  else if newowner ≠ "" then
    match scanService bus fuel st name true with
    | (st1, some e) => (st1, some e)
    | (st1, none) => ({ st1 with serviceIds := dset st1.serviceIds newowner name }, none)
  else if oldowner ≠ "" then
    let st1 := st.topics.foldl (teardownEntry name) st
    let st2 :=
      if (dget st1.services name).isSome then { st1 with services := ddel st1.services name }
      else st1
    let st3 :=
      if (dget st2.serviceIds oldowner).isSome then
        { st2 with serviceIds := ddel st2.serviceIds oldowner }
      else st2
    (st3, none)
  else (st, none)

/-- The shared tail of `_on_dbus_value_changed` once the topic is known:
extract the `Value` entry of the change dictionary (dropping the signal
when it is absent), store it and enqueue a publish. -/
def applyChange (st : St) (topic : String) (changes : List (String × V)) :
    St × Option PyExc :=
  match dget changes "Value" with
  | none => (st, none)
  | some value =>
    let st1 := { st with values := dset st.values topic value }
    (publish st1 topic value, none)

/-- `_on_dbus_value_changed(changes, path, service_id)`: resolve the
sender to a service (dropping unknown senders), look the uid up in the
mirror table, and when absent synthesize the entry from the first
`self._services` record whose value is the service (`for ... else`
returns when no record matches).  After `_add_item` the code indexes
`self._topics[uid]` directly, which raises `KeyError` when `_add_item`
declined to install an entry. -/
def onValueChanged (st : St) (serviceId : String) (path : String)
    (changes : List (String × V)) : St × Option PyExc :=
  match dget st.serviceIds serviceId with
  | none => (st, none)
  | some service =>
    let uid := service ++ path
    match dget st.topics uid with
    | some topic => applyChange st topic changes
    | none =>
      match st.services.find? (fun e => e.2 == service) with
      | none => (st, none)
      | some shortPair =>
        match (pySplit shortPair.1 '/').get? 1 with
        | none => (st, some .indexError)
        | some di =>
          match addItem st service di path .vnull with
          | .error e => (st, some e)
          | .ok (st1, _) =>
            match dget st1.topics uid with
            | none => (st1, some .keyError)
            | some topic => applyChange st1 topic changes

/-- The loop of `_service_queue(items)`: pop up to `items` entries from
the front of the queue (`popitem(last=False)`), publishing each with
retain set (publish failures are logged and swallowed, so every popped
entry counts as one attempted broker publish, collected in the returned
list); returns `False` when the queue empties first, `True` otherwise. -/
def serviceQueueGo : Nat → St → List (String × Option V) → St × List (String × Option V) × Bool
  | 0, st, acc => (st, acc.reverse, true)
  | n + 1, st, acc =>
    match st.queue with
    | [] => (st, acc.reverse, false)
    | entry :: rest => serviceQueueGo n { st with queue := rest } (entry :: acc)

/-- `_service_queue(items=5)`. -/
def serviceQueue (st : St) (items : Nat) : St × List (String × Option V) × Bool :=
  serviceQueueGo items st []

/-- `_get_uid_by_topic(topic)`: split into action, system id, service
type, device instance and path (`split('/', 4)`; an unpacking mismatch or
a bad integer raises `ValueError`), and resolve the service via
`self._services`. -/
def getUidByTopic (st : St) (topic : String) : Except PyExc (Option String × Int × String) :=
  match pySplitMax topic '/' 4 with
  | [_action, _sysId, ty, deviceInstance, path] =>
    match pyIntOfString deviceInstance with
    | none => .error .valueError
    | some di => .ok (dget st.services (ty ++ "/" ++ toString di), di, path)
  | _ => .error .valueError

/-- `_handle_read(topic)`: resolve the service (raising on an unknown
one), read a fresh value from the bus, add/refresh the mirror entry, and
when `_add_item` returned exactly the requested topic, enqueue a publish
of the fresh value. -/
def handleRead (bus : Bus) (st : St) (topic : String) : St × Option PyExc :=
  match getUidByTopic st topic with
  | .error e => (st, some e)
  | .ok (none, _, _) => (st, some (.genericExc "Unknown service"))
  | .ok (some service, di, path) =>
    match bus.getValue service ("/" ++ path) with
    | .error e => (st, some (.dbusErr e))
    | .ok value =>
      match addItem st service (toString di) path value with
      | .error e => (st, some e)
      | .ok (st1, topicR) =>
        if topicR == some topic then (publish st1 topic value, none)
        else (st1, none)

/-! ### Concrete fixtures used by witnesses and counterexamples -/

def svcB : String := "com.victronenergy.battery"

/-- A bus on which every call fails with `NoReply`. -/
def busNone : Bus :=
  { getValue := fun _ _ => .error errNoReply
    introspectXml := fun _ _ => .error errNoReply }

/-- A bus exposing one battery service with instance 0 and a single path. -/
def busA : Bus :=
  { getValue := fun _ p =>
      if p == "/DeviceInstance" then .ok (.vint 0)
      else if p == "/" then .ok (.vdict [("Dc/0/Voltage", .vint 12)])
      else .error errNoReply
    introspectXml := fun _ _ => .error errNoReply }

/-- A bus that answers the `/DeviceInstance` read and then fails with
`NoReply` on everything else (in particular on the root item listing). -/
def busC3 : Bus :=
  { getValue := fun _ p =>
      if p == "/DeviceInstance" then .ok (.vint 5)
      else .error errNoReply
    introspectXml := fun _ _ => .error errNoReply }

/-- A bridge state with one fully mirrored battery service. -/
def st1c : St :=
  { systemId := "pid"
    topics := [("com.victronenergy.battery/Dc/0/Voltage", "N/pid/battery/0/Dc/0/Voltage")]
    values := [("N/pid/battery/0/Dc/0/Voltage", .vint 12)]
    services := [("battery/0", "com.victronenergy.battery")]
    serviceIds := [(":1.5", "com.victronenergy.battery")]
    queue := []
    socketWatch := true }

/-! ### Dictionary lemmas -/

theorem dget_cons {α : Type} (e : String × α) (d : List (String × α)) (k : String) :
    dget (e :: d) k = if e.1 == k then some e.2 else dget d k := rfl

theorem dget_map_set_self {α : Type} (k : String) (v : α) :
    ∀ d : List (String × α), (dget d k).isSome = true →
      dget (d.map (fun e => if e.1 == k then (k, v) else e)) k = some v := by
  intro d
  induction d with
  | nil => intro h; simp [dget] at h
  | cons e rest ih =>
    intro h
    by_cases he : e.1 = k
    · rw [List.map_cons, if_pos (show (e.1 == k) = true by simp [he]), dget_cons,
        if_pos (show (k == k) = true by simp)]
    · rw [dget_cons, if_neg (show ¬(e.1 == k) = true by simp [he])] at h
      rw [List.map_cons, if_neg (show ¬(e.1 == k) = true by simp [he]), dget_cons,
        if_neg (show ¬(e.1 == k) = true by simp [he])]
      exact ih h

theorem dget_append_single_self {α : Type} (k : String) (v : α) :
    ∀ d : List (String × α), dget d k = none → dget (d ++ [(k, v)]) k = some v := by
  intro d
  induction d with
  | nil => intro _; rw [List.nil_append, dget_cons, if_pos (show (k == k) = true by simp)]
  | cons e rest ih =>
    intro h
    by_cases he : e.1 = k
    · rw [dget_cons, if_pos (show (e.1 == k) = true by simp [he])] at h; cases h
    · rw [dget_cons, if_neg (show ¬(e.1 == k) = true by simp [he])] at h
      rw [List.cons_append, dget_cons, if_neg (show ¬(e.1 == k) = true by simp [he])]
      exact ih h

theorem dget_map_set_ne {α : Type} (k k' : String) (v : α) (hne : k' ≠ k) :
    ∀ d : List (String × α),
      dget (d.map (fun e => if e.1 == k then (k, v) else e)) k' = dget d k' := by
  intro d
  induction d with
  | nil => rfl
  | cons e rest ih =>
    by_cases he : e.1 = k
    · have h2 : ¬(e.1 == k') = true := by
        simp only [beq_iff_eq]
        exact fun hc => hne (hc ▸ he ▸ rfl)
      have h3 : ¬(k == k') = true := by
        simp only [beq_iff_eq]
        exact fun hc => hne hc.symm
      rw [List.map_cons, if_pos (show (e.1 == k) = true by simp [he]), dget_cons,
        if_neg h3, dget_cons, if_neg h2, ih]
    · rw [List.map_cons, if_neg (show ¬(e.1 == k) = true by simp [he]), dget_cons,
        dget_cons, ih]

theorem dget_append_single_ne {α : Type} (k k' : String) (v : α) (hne : k' ≠ k) :
    ∀ d : List (String × α), dget (d ++ [(k, v)]) k' = dget d k' := by
  intro d
  induction d with
  | nil =>
    rw [List.nil_append, dget_cons, if_neg (show ¬(k == k') = true by
      simp only [beq_iff_eq]; exact fun hc => hne hc.symm)]
  | cons e rest ih => rw [List.cons_append, dget_cons, dget_cons, ih]

theorem dget_dset_self {α : Type} (d : List (String × α)) (k : String) (v : α) :
    dget (dset d k v) k = some v := by
  unfold dset
  split
  next h => exact dget_map_set_self k v d h
  next h =>
    refine dget_append_single_self k v d ?_
    cases hdg : dget d k with
    | none => rfl
    | some w => rw [hdg] at h; simp at h

theorem dget_dset_ne {α : Type} (d : List (String × α)) (k k' : String) (v : α)
    (hne : k' ≠ k) : dget (dset d k v) k' = dget d k' := by
  unfold dset
  split
  · exact dget_map_set_ne k k' v hne d
  · exact dget_append_single_ne k k' v hne d

theorem mem_dset {α : Type} {d : List (String × α)} {k : String} {v : α} {e : String × α}
    (h : e ∈ dset d k v) : e = (k, v) ∨ e ∈ d := by
  unfold dset at h
  split at h
  · rcases List.mem_map.mp h with ⟨e0, he0, hmap⟩
    by_cases hk : e0.1 = k
    · rw [if_pos (show (e0.1 == k) = true by simp [hk])] at hmap
      exact Or.inl hmap.symm
    · rw [if_neg (show ¬(e0.1 == k) = true by simp [hk])] at hmap
      exact Or.inr (hmap ▸ he0)
  · rcases List.mem_append.mp h with h1 | h1
    · exact Or.inr h1
    · exact Or.inl (List.mem_singleton.mp h1)

theorem mem_ddel {α : Type} {d : List (String × α)} {k : String} {e : String × α}
    (h : e ∈ ddel d k) : e ∈ d := List.mem_of_mem_filter h

theorem dget_mem {α : Type} {d : List (String × α)} {k : String} {v : α}
    (h : dget d k = some v) : (k, v) ∈ d := by
  induction d with
  | nil => simp [dget] at h
  | cons e rest ih =>
    by_cases he : e.1 = k
    · rw [dget_cons, if_pos (show (e.1 == k) = true by simp [he])] at h
      have hv : e.2 = v := by injection h
      have hkv : (k, v) = e := by rw [← he, ← hv]
      rw [hkv]
      exact List.mem_cons_self e rest
    · rw [dget_cons, if_neg (show ¬(e.1 == k) = true by simp [he])] at h
      exact List.mem_cons_of_mem _ (ih h)

theorem dget_none_of_all_ne {α : Type} {d : List (String × α)} {k : String}
    (h : ∀ e ∈ d, e.1 ≠ k) : dget d k = none := by
  induction d with
  | nil => rfl
  | cons e rest ih =>
    have h0 : e.1 ≠ k := h e (List.mem_cons_self e rest)
    rw [dget_cons, if_neg (show ¬(e.1 == k) = true by simp [h0])]
    exact ih (fun e' he' => h e' (List.mem_cons_of_mem _ he'))

theorem all_ne_of_dget_none {α : Type} {d : List (String × α)} {k : String}
    (h : dget d k = none) : ∀ e ∈ d, e.1 ≠ k := by
  induction d with
  | nil => simp
  | cons e rest ih =>
    by_cases he : e.1 = k
    · rw [dget_cons, if_pos (show (e.1 == k) = true by simp [he])] at h; cases h
    · rw [dget_cons, if_neg (show ¬(e.1 == k) = true by simp [he])] at h
      intro e' he'
      cases he' with
      | head => exact he
      | tail _ hmem => exact ih h e' hmem

theorem not_mem_keys_of_dget_none {α : Type} {d : List (String × α)} {k : String}
    (h : dget d k = none) : k ∉ d.map Prod.fst := by
  intro hk
  rcases List.mem_map.mp hk with ⟨e, he, hfst⟩
  exact all_ne_of_dget_none h e he hfst

theorem dset_absent {α : Type} {d : List (String × α)} {k : String} (v : α)
    (h : dget d k = none) : dset d k v = d ++ [(k, v)] := by
  unfold dset
  simp [h]

theorem keys_map_set {α : Type} (k : String) (v : α) :
    ∀ d : List (String × α),
      (d.map (fun e => if e.1 == k then (k, v) else e)).map Prod.fst = d.map Prod.fst := by
  intro d
  induction d with
  | nil => rfl
  | cons e rest ih =>
    by_cases he : e.1 = k
    · rw [List.map_cons, if_pos (show (e.1 == k) = true by simp [he]), List.map_cons,
        List.map_cons, ih]
      rw [show ((k, v) : String × α).1 = e.1 from he.symm]
    · rw [List.map_cons, if_neg (show ¬(e.1 == k) = true by simp [he]), List.map_cons,
        List.map_cons, ih]

theorem keys_dset_of_mem {α : Type} {d : List (String × α)} {k : String} (v : α)
    (h : (dget d k).isSome = true) : (dset d k v).map Prod.fst = d.map Prod.fst := by
  unfold dset
  rw [if_pos h]
  exact keys_map_set k v d

theorem nodup_dset {α : Type} {d : List (String × α)} {k : String} {v : α}
    (h : NodupKeys d) : NodupKeys (dset d k v) := by
  unfold dset
  split
  next hs =>
    unfold NodupKeys
    rw [keys_map_set]
    exact h
  next hs =>
    have hk : dget d k = none := by
      cases hdg : dget d k with
      | none => rfl
      | some w => rw [hdg] at hs; simp at hs
    unfold NodupKeys at h ⊢
    simp only [List.map_append, List.map_cons, List.map_nil]
    rw [List.nodup_append]
    refine ⟨h, List.nodup_singleton k, ?_⟩
    intro a ha hb
    simp at hb
    subst hb
    exact not_mem_keys_of_dget_none hk ha

theorem filter_map_set_nil {α : Type} (k : String) (v : α)
    (d : List (String × α)) (hd : dget d k = none) :
    (d.map (fun e => if e.1 == k then (k, v) else e)).filter (fun e => e.1 == k) = [] := by
  rw [List.filter_eq_nil_iff]
  intro a ha
  rcases List.mem_map.mp ha with ⟨e0, he0, hmap⟩
  have hne := all_ne_of_dget_none hd e0 he0
  rw [← hmap, if_neg (show ¬(e0.1 == k) = true by simp [hne])]
  simp [hne]

theorem filter_of_dget_none {α : Type} {d : List (String × α)} {k : String}
    (hd : dget d k = none) : d.filter (fun e => e.1 == k) = [] := by
  rw [List.filter_eq_nil_iff]
  intro a ha
  simp [all_ne_of_dget_none hd a ha]

theorem filter_map_set {α : Type} (k : String) (v : α) :
    ∀ d : List (String × α), NodupKeys d → (dget d k).isSome = true →
      (d.map (fun e => if e.1 == k then (k, v) else e)).filter (fun e => e.1 == k)
        = [(k, v)] := by
  intro d
  induction d with
  | nil => intro _ h; simp [dget] at h
  | cons e rest ih =>
    intro hn h
    have hn' : NodupKeys rest := by
      unfold NodupKeys at hn ⊢
      simpa using hn.of_cons
    by_cases he : e.1 = k
    · have hrest : dget rest k = none := by
        refine dget_none_of_all_ne ?_
        intro e' he' hc
        unfold NodupKeys at hn
        simp only [List.map_cons, List.nodup_cons] at hn
        exact hn.1 (List.mem_map.mpr ⟨e', he', by rw [hc, he]⟩)
      rw [List.map_cons, if_pos (show (e.1 == k) = true by simp [he]), List.filter_cons,
        if_pos (show (((k, v) : String × α).1 == k) = true by simp),
        filter_map_set_nil k v rest hrest]
    · rw [dget_cons, if_neg (show ¬(e.1 == k) = true by simp [he])] at h
      rw [List.map_cons, if_neg (show ¬(e.1 == k) = true by simp [he]), List.filter_cons,
        if_neg (show ¬(e.1 == k) = true by simp [he])]
      exact ih hn' h

theorem filter_dset_self {α : Type} {d : List (String × α)} {k : String} {v : α}
    (h : NodupKeys d) : (dset d k v).filter (fun e => e.1 == k) = [(k, v)] := by
  unfold dset
  split
  next hs => exact filter_map_set k v d h hs
  next hs =>
    have hk : dget d k = none := by
      cases hdg : dget d k with
      | none => rfl
      | some w => rw [hdg] at hs; simp at hs
    rw [List.filter_append, filter_of_dget_none hk]
    simp

/-! ### String decomposition lemmas -/

theorem string_eq_of_data {s t : String} (h : s.data = t.data) : s = t := by
  cases s
  cases t
  exact congrArg String.mk h

theorem data_append_eq (s t : String) : (s ++ t).data = s.data ++ t.data := rfl

theorem noSlash_not_mem {s : String} (h : noSlash s = true) : '/' ∉ s.data := by
  unfold noSlash at h
  intro hc
  simp_all

theorem head_of_pyStartsWith_slash {p : String} (h : pyStartsWith p "/" = true) :
    ∃ rest, p.data = '/' :: rest := by
  unfold pyStartsWith at h
  have hpre : ("/" : String).data <+: p.data := List.isPrefixOf_iff_prefix.mp h
  rcases hpre with ⟨rest, hrest⟩
  exact ⟨rest, hrest.symm⟩

theorem chunk_unique : ∀ (l1 : List Char) (r1 : List Char) (l2 r2 : List Char),
    l1 ++ r1 = l2 ++ r2 → '/' ∉ l1 → '/' ∉ l2 →
    (∃ t1, r1 = '/' :: t1) → (∃ t2, r2 = '/' :: t2) → l1 = l2 ∧ r1 = r2 := by
  intro l1
  induction l1 with
  | nil =>
    intro r1 l2 r2 h n1 n2 h1 h2
    cases l2 with
    | nil => exact ⟨rfl, h⟩
    | cons c l2t =>
      rcases h1 with ⟨t1, ht1⟩
      rw [List.nil_append, ht1] at h
      have hc : c = '/' := by
        have := congrArg List.head? h
        simp at this
        exact this.symm
      exact absurd (hc ▸ List.mem_cons_self c l2t) n2
  | cons c l1t ih =>
    intro r1 l2 r2 h n1 n2 h1 h2
    cases l2 with
    | nil =>
      rcases h2 with ⟨t2, ht2⟩
      rw [List.nil_append, ht2] at h
      have hc : c = '/' := by
        have := congrArg List.head? h
        simp at this
        exact this
      exact absurd (hc ▸ List.mem_cons_self c l1t) n1
    | cons c2 l2t =>
      simp only [List.cons_append, List.cons.injEq] at h
      have n1' : '/' ∉ l1t := fun hc => n1 (List.mem_cons_of_mem _ hc)
      have n2' : '/' ∉ l2t := fun hc => n2 (List.mem_cons_of_mem _ hc)
      rcases ih r1 l2t r2 h.2 n1' n2' h1 h2 with ⟨he1, he2⟩
      exact ⟨by rw [h.1, he1], he2⟩

/-- A uid splits in at most one way into a slash-free service name
followed by a path that begins with a slash. -/
theorem uid_split_unique {s1 p1 s2 p2 : String} (h : s1 ++ p1 = s2 ++ p2)
    (n1 : noSlash s1 = true) (n2 : noSlash s2 = true)
    (h1 : pyStartsWith p1 "/" = true) (h2 : pyStartsWith p2 "/" = true) :
    s1 = s2 ∧ p1 = p2 := by
  have hdata : s1.data ++ p1.data = s2.data ++ p2.data := by
    rw [← data_append_eq, ← data_append_eq, h]
  rcases chunk_unique s1.data p1.data s2.data p2.data hdata (noSlash_not_mem n1)
    (noSlash_not_mem n2) (head_of_pyStartsWith_slash h1) (head_of_pyStartsWith_slash h2)
    with ⟨e1, e2⟩
  exact ⟨string_eq_of_data e1, string_eq_of_data e2⟩

/-! ### `get_service_type` on vendor-prefixed names -/

theorem splitChars_cons (sep c : Char) (cs : List Char) :
    splitChars sep (c :: cs)
      = if c == sep then [] :: splitChars sep cs
        else
          match splitChars sep cs with
          | [] => [[c]]
          | h :: t => (c :: h) :: t := rfl

theorem splitChars_length (sep : Char) :
    ∀ l : List Char, (splitChars sep l).length = l.count sep + 1 := by
  intro l
  induction l with
  | nil => rfl
  | cons c cs ih =>
    rw [splitChars_cons]
    by_cases hc : c = sep
    · rw [if_pos (by simp [hc])]
      simp [List.count_cons, hc, ih]
    · rw [if_neg (by simp [hc])]
      cases hsc : splitChars sep cs with
      | nil => rw [hsc] at ih; simp at ih
      | cons hd tl =>
        rw [hsc] at ih
        simp only [List.length_cons] at ih ⊢
        simp [List.count_cons, hc]
        omega

theorem pySplit_len_ge {s : String} (h : pyStartsWith s ServicePrefixStr = true) :
    2 < (pySplit s '.').length := by
  unfold pySplit
  rw [List.length_map, splitChars_length]
  have hpre : ServicePrefixStr.data <+: s.data := by
    unfold pyStartsWith at h
    exact List.isPrefixOf_iff_prefix.mp h
  have hcle : ServicePrefixStr.data.count '.' ≤ s.data.count '.' :=
    List.Sublist.count_le hpre.sublist '.'
  have h2 : ServicePrefixStr.data.count '.' = 2 := by decide
  omega

theorem get_service_type_ok {s : String} (h : pyStartsWith s ServicePrefixStr = true) :
    get_service_type s = .ok (svcType s) := by
  unfold get_service_type svcType
  rw [if_pos h]
  cases h2 : (pySplit s '.').get? 2 with
  | none =>
    have hlen := List.get?_eq_none.mp h2
    have := pySplit_len_ge h
    omega
  | some t => simp [h2]

/-! ### Sorting and queue-drain lemmas -/

theorem insertSorted_perm (x : String) :
    ∀ l : List String, (insertSorted x l).Perm (x :: l) := by
  intro l
  induction l with
  | nil => exact List.Perm.refl _
  | cons y ys ih =>
    unfold insertSorted
    split
    · exact List.Perm.refl _
    · exact (ih.cons y).trans (List.Perm.swap x y ys)

theorem sortStrs_perm (l : List String) : (sortStrs l).Perm l := by
  induction l with
  | nil => exact List.Perm.refl _
  | cons x xs ih =>
    unfold sortStrs
    simp only [List.foldr_cons]
    exact (insertSorted_perm x _).trans (ih.cons x)

theorem mem_sortStrs {a : String} {l : List String} : a ∈ sortStrs l ↔ a ∈ l :=
  (sortStrs_perm l).mem_iff

theorem serviceQueueGo_pub :
    ∀ (n : Nat) (st : St) (acc : List (String × Option V)),
      (serviceQueueGo n st acc).2.1 = acc.reverse ++ st.queue.take n := by
  intro n
  induction n with
  | zero => intro st acc; simp [serviceQueueGo]
  | succ m ih =>
    intro st acc
    unfold serviceQueueGo
    cases hq : st.queue with
    | nil => simp
    | cons e rest =>
      rw [ih]
      simp

theorem serviceQueue_pub (st : St) (n : Nat) :
    (serviceQueue st n).2.1 = st.queue.take n := by
  unfold serviceQueue
  rw [serviceQueueGo_pub]
  simp

theorem serviceQueue_pub_mem {st : St} {n : Nat} {e : String × Option V}
    (h : e ∈ (serviceQueue st n).2.1) : e ∈ st.queue := by
  rw [serviceQueue_pub] at h
  exact List.mem_of_mem_take h

/-! ### Frequently used frame facts about `publish` -/

theorem publish_socket (st : St) (t : String) (v : V) :
    (publish st t v).socketWatch = st.socketWatch := by
  unfold publish
  split <;> rfl

theorem publish_values (st : St) (t : String) (v : V) :
    (publish st t v).values = st.values := by
  unfold publish
  split <;> rfl

theorem publish_of_watch {st : St} (hw : st.socketWatch = true) (t : String) (v : V) :
    publish st t v = { st with queue := dset st.queue t (some v) } := by
  unfold publish
  rw [hw]
  rfl

/-! ### Claim C1 -/

/-- C1 (the claim is right, the code is wrong): when a vendor-prefixed
name loses its owner, the handler does tombstone every mirrored topic of
the service, empties the mirror table of its uids and value slots, and
removes the owner-handle entry -- but the service record survives in the
service_type/device_instance registry.  The deletion guard
`if name in self._services` tests the full bus name against a dictionary
keyed by short names (the source's own comment documents the keys as
service_type/device_instance), so it can never fire.  Evaluated here on a
state holding one mirrored battery service: after the owner-change event
the mirror table and owner handles are empty and the tombstone is queued,
yet `services` still holds the record the claim says is dropped. -/
theorem c1_teardown_keeps_service_record :
    (nameOwnerChanged busNone 5 st1c svcB ":1.5" "").1.topics = [] ∧
    (nameOwnerChanged busNone 5 st1c svcB ":1.5" "").1.values = [] ∧
    (nameOwnerChanged busNone 5 st1c svcB ":1.5" "").1.queue
      = [("N/pid/battery/0/Dc/0/Voltage", (none : Option V))] ∧
    (nameOwnerChanged busNone 5 st1c svcB ":1.5" "").1.serviceIds = [] ∧
    (nameOwnerChanged busNone 5 st1c svcB ":1.5" "").1.services
      = [("battery/0", "com.victronenergy.battery")] :=
  ⟨rfl, rfl, rfl, rfl, rfl⟩

/-! ### Claim C2 -/

/-- C2 counterexample: an owner swap (both owners non-empty) is NOT
handled as a disappearance followed by an appearance.  On a state with
one mirrored battery topic, the event with oldowner `:1.5` and newowner
`:1.9` leaves every mirror entry in place, enqueues no tombstone, and
keeps the old owner-handle entry: only the appearance branch ran (the
re-scan here fails transiently, so the net effect is just the newowner
registration). -/
theorem c2_counterexample :
    (nameOwnerChanged busNone 5 st1c svcB ":1.5" ":1.9").1.topics = st1c.topics ∧
    st1c.topics ≠ [] ∧
    (nameOwnerChanged busNone 5 st1c svcB ":1.5" ":1.9").1.queue = [] ∧
    dget (nameOwnerChanged busNone 5 st1c svcB ":1.5" ":1.9").1.serviceIds ":1.5"
      = some svcB ∧
    dget (nameOwnerChanged busNone 5 st1c svcB ":1.5" ":1.9").1.serviceIds ":1.9"
      = some svcB :=
  ⟨rfl, by decide, rfl, rfl, rfl⟩

/-! ### Claim C3 -/

theorem transient_not_unknown {e : String} (h : transientName e = true) :
    unknownObjOrMethod e = false := by
  unfold transientName at h
  simp only [Bool.or_eq_true, beq_iff_eq] at h
  rcases h with (h | h) | h <;> rw [h] <;> decide

/-- C3 counterexample: a scan abandoned by a transient bus error can
leave a fresh service record behind.  On `busC3` the `/DeviceInstance`
read succeeds (instance 5) and the root item listing then fails with
`NoReply`: the scan swallows the error and returns, but the
service_type/device_instance registry -- empty before the scan -- now
contains the record written between the two calls. -/
theorem c3_counterexample :
    scanService busC3 5 (initSt "pid") svcB false
      = ({ initSt "pid" with services := [("battery/5", svcB)] }, none) ∧
    (initSt "pid").services = [] :=
  ⟨rfl, rfl⟩

/-- C3 (amended): a transient bus error (`service-unknown`,
`disconnected`, `no-reply`) during a scan never propagates and abandons
the scan; whether the registry is unchanged depends on where the error
strikes.  If the initial `/DeviceInstance` read fails transiently, the
state is returned untouched and no record is created; if the instance
read succeeds and the root item listing then fails transiently, the
service record installed between the two calls remains. -/
theorem c3_transient_scan (bus : Bus) (fuel : Nat) (st : St) (service : String)
    (pub : Bool) (e : String) (ht : transientName e = true) :
    (bus.getValue service "/DeviceInstance" = .error e →
      scanService bus fuel st service pub = (st, none)) ∧
    (∀ n : Int, pyStartsWith service ServicePrefixStr = true →
      bus.getValue service "/DeviceInstance" = .ok (.vint n) →
      bus.getValue service "/" = .error e →
      scanService bus fuel st service pub
        = ({ st with
              services := dset st.services (svcType service ++ "/" ++ toString n) service },
            none)) := by
  constructor
  · intro hdi
    unfold scanService scanBody diResolve
    rw [hdi]
    simp [transient_not_unknown ht, outerCatch, ht]
  · intro n hpre hdi hroot
    unfold scanService scanBody diResolve
    rw [hdi]
    simp [pyInt, get_short_service_name, get_service_type_ok hpre, Except.map, hroot,
      scanListing, transient_not_unknown ht, outerCatch, ht]

theorem c3_witness :
    transientName errNoReply = true ∧
    pyStartsWith svcB ServicePrefixStr = true ∧
    busC3.getValue svcB "/DeviceInstance" = .ok (.vint 5) ∧
    busC3.getValue svcB "/" = .error errNoReply ∧
    scanService busC3 5 (initSt "pid") svcB false
      = ({ initSt "pid" with
            services := dset (initSt "pid").services
              (svcType svcB ++ "/" ++ toString (5 : Int)) svcB },
          none) :=
  ⟨by decide, by decide, rfl, rfl,
    (c3_transient_scan busC3 5 (initSt "pid") svcB false errNoReply (by decide)).2
      5 (by decide) rfl rfl⟩

/-! ### Claim C4 -/

/-- A queue state with two distinct pending topics, `A` in front. -/
def stQ : St :=
  { initSt "pid" with
    socketWatch := true
    queue := [("A", some (V.vint 1)), ("B", some (V.vint 2))] }

/-- C4 counterexample: re-enqueueing a topic that already has a pending
payload does NOT move its entry to the tail of the drain order.  With
queue `A, B`, re-enqueueing `A` leaves the order `A, B` (the payload is
replaced in place), and a drain publishes `A` first -- not last among the
pending topics as the claim requires. -/
theorem c4_counterexample :
    (publish stQ "A" (V.vint 3)).queue
      = [("A", some (V.vint 3)), ("B", some (V.vint 2))] ∧
    (serviceQueue (publish stQ "A" (V.vint 3)) 5).2.1.map Prod.fst = ["A", "B"] ∧
    (["A", "B"] : List String) ≠ ["B", "A"] :=
  ⟨rfl, rfl, by decide⟩

/-- C4 (amended): re-enqueueing a topic that already has a pending
payload replaces the prior payload with the new one and keeps the
topic's entry at its original position in the queue's drain order (the
sequence of queued topics is unchanged; Python dict assignment to an
existing key does not move the key). -/
theorem c4_replace_in_place (st : St) (topic : String) (value : V)
    (hw : st.socketWatch = true) (hp : (dget st.queue topic).isSome = true) :
    (publish st topic value).queue.map Prod.fst = st.queue.map Prod.fst ∧
    dget (publish st topic value).queue topic = some (some value) := by
  rw [publish_of_watch hw]
  exact ⟨keys_dset_of_mem (some value) hp, dget_dset_self st.queue topic (some value)⟩

theorem c4_witness :
    stQ.socketWatch = true ∧ (dget stQ.queue "A").isSome = true ∧
    ((publish stQ "A" (V.vint 3)).queue.map Prod.fst = stQ.queue.map Prod.fst ∧
     dget (publish stQ "A" (V.vint 3)).queue "A" = some (some (V.vint 3))) :=
  ⟨rfl, rfl, c4_replace_in_place stQ "A" (V.vint 3) rfl rfl⟩

/-! ### Claim C5 -/

/-- C5: two successive enqueues of the same topic with no intervening
drain leave exactly one pending queue entry for the topic, carrying the
later payload; draining the whole queue then performs exactly one broker
publish for that topic, carrying the later payload (hence at most one). -/
theorem c5_coalesce (st : St) (topic : String) (v1 v2 : V)
    (hw : st.socketWatch = true) (hn : NodupKeys st.queue) :
    ((publish (publish st topic v1) topic v2).queue.filter (fun e => e.1 == topic)
        = [(topic, some v2)]) ∧
    ((serviceQueue (publish (publish st topic v1) topic v2)
        ((publish (publish st topic v1) topic v2).queue.length)).2.1.filter
          (fun e => e.1 == topic) = [(topic, some v2)]) := by
  have h1 : publish st topic v1 = { st with queue := dset st.queue topic (some v1) } :=
    publish_of_watch hw topic v1
  have hw1 : (publish st topic v1).socketWatch = true := by rw [publish_socket, hw]
  have h2 : publish (publish st topic v1) topic v2
      = { publish st topic v1 with
          queue := dset (publish st topic v1).queue topic (some v2) } :=
    publish_of_watch hw1 topic v2
  have hq : (publish (publish st topic v1) topic v2).queue
      = dset (dset st.queue topic (some v1)) topic (some v2) := by
    rw [h2, h1]
  have hnd : NodupKeys (dset st.queue topic (some v1)) := nodup_dset hn
  have hfil : (publish (publish st topic v1) topic v2).queue.filter
      (fun e => e.1 == topic) = [(topic, some v2)] := by
    rw [hq]
    exact filter_dset_self hnd
  refine ⟨hfil, ?_⟩
  rw [serviceQueue_pub, List.take_length]
  exact hfil

theorem c5_witness :
    stQ.socketWatch = true ∧ NodupKeys stQ.queue ∧
    (((publish (publish stQ "A" (V.vint 7)) "A" (V.vint 8)).queue.filter
        (fun e => e.1 == "A") = [("A", some (V.vint 8))]) ∧
     ((serviceQueue (publish (publish stQ "A" (V.vint 7)) "A" (V.vint 8))
        ((publish (publish stQ "A" (V.vint 7)) "A" (V.vint 8)).queue.length)).2.1.filter
          (fun e => e.1 == "A") = [("A", some (V.vint 8))])) :=
  ⟨rfl, by unfold NodupKeys; decide,
    c5_coalesce stQ "A" (V.vint 7) (V.vint 8) rfl (by unfold NodupKeys; decide)⟩

/-! ### Claim C9 -/

/-- C9: a `PropertiesChanged` signal whose sender resolves to a known
service, whose (service_type, path) pair is blocked, and whose uid has no
existing mirror entry makes `_on_dbus_value_changed` raise `KeyError`
rather than silently dropping the signal: `_add_item` declines to install
an entry and the subsequent direct `self._topics[uid]` indexing fails.
The tables are left as they were. -/
theorem c9_blocked_signal_keyerror (st : St) (sid path service : String)
    (changes : List (String × V)) (pr : String × String) (di : String)
    (hsid : dget st.serviceIds sid = some service)
    (hpre : pyStartsWith service ServicePrefixStr = true)
    (hpath : pyStartsWith path "/" = true)
    (hblk : (svcType service, path) ∈ blocked_items)
    (hnotop : dget st.topics (service ++ path) = none)
    (hfind : st.services.find? (fun e => e.2 == service) = some pr)
    (hdi : (pySplit pr.1 '/').get? 1 = some di) :
    onValueChanged st sid path changes = (st, some .keyError) := by
  unfold onValueChanged
  rw [hsid]
  simp only [hnotop, hfind, hdi]
  rw [show addItem st service di path .vnull = .ok (st, none) by
    unfold addItem
    rw [if_pos hpath]
    simp only [hnotop]
    rw [get_service_type_ok hpre]
    simp only [if_pos hblk]]
  simp [hnotop]

/-! ### Claim C10 -/

/-- A bus whose every `GetValue` read returns 99. -/
def busFresh : Bus :=
  { getValue := fun _ _ => .ok (.vint 99)
    introspectXml := fun _ _ => .error errNoReply }

theorem publishAll_fold_aux (V0 : List (String × V)) (t : String) (v : V)
    (hv : dget V0 t = some v) :
    ∀ (l : List String) (s : St), s.values = V0 → s.socketWatch = true →
      (t ∈ l → dget ((l.foldl (fun s t' =>
          match dget s.values t' with
          | some w => publish s t' w
          | none => s) s).queue) t = some (some v)) ∧
      (t ∉ l → dget ((l.foldl (fun s t' =>
          match dget s.values t' with
          | some w => publish s t' w
          | none => s) s).queue) t = dget s.queue t) := by
  intro l
  induction l with
  | nil =>
    intro s hsv hsw
    exact ⟨fun h => absurd h (List.not_mem_nil t), fun _ => rfl⟩
  | cons x xs ih =>
    intro s hsv hsw
    set s1 := match dget s.values x with
      | some w => publish s x w
      | none => s with hs1
    have hs1v : s1.values = V0 := by
      rw [hs1]
      cases dget s.values x with
      | none => exact hsv
      | some w => rw [publish_values]; exact hsv
    have hs1w : s1.socketWatch = true := by
      rw [hs1]
      cases dget s.values x with
      | none => exact hsw
      | some w => rw [publish_socket]; exact hsw
    have hstep : (x :: xs).foldl (fun s t' =>
        match dget s.values t' with
        | some w => publish s t' w
        | none => s) s = xs.foldl (fun s t' =>
        match dget s.values t' with
        | some w => publish s t' w
        | none => s) s1 := by
      rw [List.foldl_cons]
    rcases ih s1 hs1v hs1w with ⟨ih1, ih2⟩
    by_cases hx : x = t
    · subst hx
      have hq1 : dget s1.queue x = some (some v) := by
        have hpub : s1 = publish s x v := by rw [hs1, hsv, hv]
        rw [hpub, publish_of_watch hsw]
        exact dget_dset_self s.queue x (some v)
      constructor
      · intro _
        rw [hstep]
        by_cases hxs : x ∈ xs
        · exact ih1 hxs
        · rw [ih2 hxs]
          exact hq1
      · intro hcon
        exact absurd (List.mem_cons_self x xs) hcon
    · have hq1 : dget s1.queue t = dget s.queue t := by
        rw [hs1]
        cases hgv : dget s.values x with
        | none => rfl
        | some w =>
          show dget (publish s x w).queue t = dget s.queue t
          rw [publish_of_watch hsw]
          exact dget_dset_ne s.queue x t (some w) (fun hc => hx hc.symm)
      constructor
      · intro hmem
        cases hmem with
        | head => exact absurd rfl hx
        | tail _ hmem2 =>
          rw [hstep]
          exact ih1 hmem2
      · intro hnm
        have hnx : t ∉ xs := fun hc => hnm (List.mem_cons_of_mem _ hc)
        rw [hstep, ih2 hnx]
        exact hq1

/-- After a publish-all, the pending payload of a topic present in the
value table is its stored last-seen value. -/
theorem publishAll_dget (st : St) (t : String) (v : V)
    (hw : st.socketWatch = true) (hv : dget st.values t = some v) :
    dget (publishAll st).queue t = some (some v) := by
  unfold publishAll
  have hmem : t ∈ sortStrs (st.values.map Prod.fst) := by
    rw [mem_sortStrs]
    exact List.mem_map.mpr ⟨(t, v), dget_mem hv, rfl⟩
  exact (publishAll_fold_aux st.values t v hv _ st rfl hw).1 hmem

/-- C10: a read request for a topic that already has a mirror entry
enqueues a publish of the freshly read bus value but leaves the stored
last-seen value untouched (`_add_item` returns the existing topic without
writing the value), so a subsequent publish-all re-enqueues the older
stored value rather than the value just read. -/
theorem c10_read_keeps_stale_value (bus : Bus) (st : St) (rtopic service : String)
    (di : Int) (path : String) (freshV oldV : V)
    (hparse : getUidByTopic st rtopic = .ok (some service, di, path))
    (hentry : dget st.topics
        (service ++ (if pyStartsWith path "/" then path else "/" ++ path)) = some rtopic)
    (hbus : bus.getValue service ("/" ++ path) = .ok freshV)
    (hw : st.socketWatch = true)
    (hold : dget st.values rtopic = some oldV) :
    handleRead bus st rtopic
      = ({ st with queue := dset st.queue rtopic (some freshV) }, none) ∧
    ({ st with queue := dset st.queue rtopic (some freshV) } : St).values = st.values ∧
    dget ({ st with queue := dset st.queue rtopic (some freshV) } : St).queue rtopic
      = some (some freshV) ∧
    dget (publishAll { st with queue := dset st.queue rtopic (some freshV) }).queue rtopic
      = some (some oldV) := by
  have hadd : addItem st service (toString di) path freshV = .ok (st, some rtopic) := by
    unfold addItem
    simp only [hentry]
  have hread : handleRead bus st rtopic
      = ({ st with queue := dset st.queue rtopic (some freshV) }, none) := by
    unfold handleRead
    rw [hparse]
    simp only [hbus, hadd]
    rw [if_pos (show (some rtopic == some rtopic) = true by simp)]
    rw [publish_of_watch hw]
  refine ⟨hread, rfl, dget_dset_self st.queue rtopic (some freshV), ?_⟩
  exact publishAll_dget _ rtopic oldV hw hold

theorem c10_witness :
    getUidByTopic st1c "N/pid/battery/0/Dc/0/Voltage"
      = .ok (some svcB, 0, "Dc/0/Voltage") ∧
    dget st1c.topics (svcB ++ (if pyStartsWith "Dc/0/Voltage" "/" then "Dc/0/Voltage"
        else "/" ++ "Dc/0/Voltage")) = some "N/pid/battery/0/Dc/0/Voltage" ∧
    busFresh.getValue svcB ("/" ++ "Dc/0/Voltage") = .ok (.vint 99) ∧
    st1c.socketWatch = true ∧
    dget st1c.values "N/pid/battery/0/Dc/0/Voltage" = some (.vint 12) ∧
    (handleRead busFresh st1c "N/pid/battery/0/Dc/0/Voltage"
        = ({ st1c with
            queue := dset st1c.queue "N/pid/battery/0/Dc/0/Voltage" (some (.vint 99)) },
          none) ∧
      ({ st1c with
          queue := dset st1c.queue "N/pid/battery/0/Dc/0/Voltage"
            (some (.vint 99)) } : St).values = st1c.values ∧
      dget ({ st1c with
          queue := dset st1c.queue "N/pid/battery/0/Dc/0/Voltage"
            (some (.vint 99)) } : St).queue "N/pid/battery/0/Dc/0/Voltage"
        = some (some (.vint 99)) ∧
      dget (publishAll { st1c with
          queue := dset st1c.queue "N/pid/battery/0/Dc/0/Voltage"
            (some (.vint 99)) }).queue "N/pid/battery/0/Dc/0/Voltage"
        = some (some (.vint 12))) :=
  ⟨rfl, rfl, rfl, rfl, rfl,
    c10_read_keeps_stale_value busFresh st1c "N/pid/battery/0/Dc/0/Voltage" svcB 0
      "Dc/0/Voltage" (.vint 99) (.vint 12) rfl rfl rfl rfl rfl⟩

/-! ### Frame lemmas for the scan path (claim C2) -/

/-- No tombstone is pending in the queue. -/
def NoTomb (st : St) : Prop := ∀ e ∈ st.queue, e.2 ≠ (none : Option V)

/-- What a scan may do to the lifecycle-relevant tables: the mirror table
is only appended to, owner handles are untouched, and no tombstone is
enqueued. -/
def ScanFrame (st st' : St) : Prop :=
  (∃ l, st'.topics = st.topics ++ l) ∧ st'.serviceIds = st.serviceIds ∧
  (NoTomb st → NoTomb st')

theorem scanFrame_refl (st : St) : ScanFrame st st :=
  ⟨⟨[], (List.append_nil st.topics).symm⟩, rfl, fun h => h⟩

theorem scanFrame_trans {a b c : St} (h1 : ScanFrame a b) (h2 : ScanFrame b c) :
    ScanFrame a c := by
  rcases h1 with ⟨⟨l1, hl1⟩, hi1, hq1⟩
  rcases h2 with ⟨⟨l2, hl2⟩, hi2, hq2⟩
  exact ⟨⟨l1 ++ l2, by rw [hl2, hl1, List.append_assoc]⟩, by rw [hi2, hi1],
    fun h => hq2 (hq1 h)⟩

theorem publish_scanFrame (st : St) (t : String) (v : V) :
    ScanFrame st (publish st t v) := by
  unfold publish
  split
  · exact scanFrame_refl st
  · refine ⟨⟨[], (List.append_nil st.topics).symm⟩, rfl, fun h e he => ?_⟩
    rcases mem_dset he with he | he
    · rw [he]; simp
    · exact h e he

theorem addItem_cases (st : St) (s di p : String) (v : V) :
    (∃ e, addItem st s di p v = .error e) ∨
    (∃ r0, addItem st s di p v = .ok (st, r0)) ∨
    (∃ uid topic, dget st.topics uid = none ∧
      addItem st s di p v
        = .ok ({ st with
                 topics := dset st.topics uid topic
                 values := dset st.values topic v }, some topic)) := by
  unfold addItem
  cases hd : dget st.topics (s ++ (if pyStartsWith p "/" then p else "/" ++ p)) with
  | some r0 =>
    right; left
    exact ⟨some r0, by simp [hd]⟩
  | none =>
    cases hty : get_service_type s with
    | error e =>
      left
      exact ⟨e, by simp [hd, hty]⟩
    | ok ty =>
      by_cases hb : (ty, (if pyStartsWith p "/" then p else "/" ++ p)) ∈ blocked_items
      · right; left
        exact ⟨none, by simp [hd, hty, hb]⟩
      · right; right
        refine ⟨s ++ (if pyStartsWith p "/" then p else "/" ++ p),
          mkTopic st.systemId ty di (if pyStartsWith p "/" then p else "/" ++ p), hd, ?_⟩
        simp [hd, hty, hb]

theorem addItem_scanFrame {st st' : St} {s di p : String} {v : V} {r : Option String}
    (h : addItem st s di p v = .ok (st', r)) : ScanFrame st st' := by
  rcases addItem_cases st s di p v with ⟨e, he⟩ | ⟨r0, he⟩ | ⟨uid, topic, hd, he⟩
  · rw [he] at h; cases h
  · rw [he] at h
    injection h with h1
    have hst : st = st' := congrArg Prod.fst h1
    rw [← hst]
    exact scanFrame_refl st
  · rw [he] at h
    injection h with h1
    have hst : st' = { st with
        topics := dset st.topics uid topic
        values := dset st.values topic v } := (congrArg Prod.fst h1).symm
    rw [hst]
    refine ⟨⟨[(uid, topic)], ?_⟩, rfl, fun hq => hq⟩
    show dset st.topics uid topic = st.topics ++ [(uid, topic)]
    exact dset_absent topic hd

theorem scanItems_scanFrame (service : String) (di : Int) (pub : Bool) :
    ∀ (kvs : List (String × V)) (st : St),
      ScanFrame st (scanItems service di pub kvs st).1 := by
  intro kvs
  induction kvs with
  | nil => intro st; exact scanFrame_refl st
  | cons kv rest ih =>
    intro st
    obtain ⟨p0, v0⟩ := kv
    unfold scanItems
    cases ha : addItem st service (toString di) p0 v0 with
    | error e => exact scanFrame_refl st
    | ok pr =>
      obtain ⟨st1, topicR⟩ := pr
      have hf1 : ScanFrame st st1 := addItem_scanFrame ha
      have hcont : ∀ s2 : St, ScanFrame st1 s2 →
          ScanFrame st (scanItems service di pub rest s2).1 :=
        fun s2 hf2 => scanFrame_trans hf1 (scanFrame_trans hf2 (ih s2))
      cases topicR with
      | none => exact hcont st1 (scanFrame_refl st1)
      | some t =>
        show ScanFrame st (scanItems service di pub rest
          (if pub = true then publish st1 t v0 else st1)).1
        by_cases hp : pub = true
        · rw [if_pos hp]
          exact hcont _ (publish_scanFrame st1 t v0)
        · rw [if_neg hp]
          exact hcont _ (scanFrame_refl st1)

theorem introLeaf_scanFrame (bus : Bus) (service : String) (di : Int) (pub : Bool)
    (path : String) :
    ∀ (ifs : List (Option String)) (st : St),
      ScanFrame st (introLeaf bus service di pub path ifs st).1 := by
  intro ifs
  induction ifs with
  | nil => intro st; exact scanFrame_refl st
  | cons ifname rest ih =>
    intro st
    unfold introLeaf
    by_cases hi : ifname = some "com.victronenergy.BusItem"
    · rw [if_pos (by simp [hi])]
      cases bus.getValue service path with
      | error e => exact scanFrame_refl st
      | ok v =>
        show ScanFrame st ((match addItem st service (toString di) path v with
          | Except.error e => (st, some e)
          | Except.ok (st1, topicR) =>
            introLeaf bus service di pub path rest
              (match topicR with
                | some t => if pub = true then publish st1 t v else st1
                | none => st1)).1)
        cases ha : addItem st service (toString di) path v with
        | error e => exact scanFrame_refl st
        | ok pr =>
          obtain ⟨st1, topicR⟩ := pr
          have hf1 : ScanFrame st st1 := addItem_scanFrame ha
          have hcont : ∀ s2 : St, ScanFrame st1 s2 →
              ScanFrame st (introLeaf bus service di pub path rest s2).1 :=
            fun s2 hf2 => scanFrame_trans hf1 (scanFrame_trans hf2 (ih s2))
          cases topicR with
          | none => exact hcont st1 (scanFrame_refl st1)
          | some t =>
            show ScanFrame st (introLeaf bus service di pub path rest
              (if pub = true then publish st1 t v else st1)).1
            by_cases hp : pub = true
            · rw [if_pos hp]
              exact hcont _ (publish_scanFrame st1 t v)
            · rw [if_neg hp]
              exact hcont _ (scanFrame_refl st1)
    · rw [if_neg (by simp [hi])]
      exact ih st

theorem introKids_scanFrame (go : String → St → St × Option PyExc)
    (hgo : ∀ p s, ScanFrame s (go p s).1) (path : String) :
    ∀ (ns : List (Option String)) (st : St),
      ScanFrame st (introKids go path ns st).1 := by
  intro ns
  induction ns with
  | nil => intro st; exact scanFrame_refl st
  | cons n? rest ih =>
    intro st
    unfold introKids
    cases n? with
    | none => exact ih st
    | some nm =>
      show ScanFrame st ((match go (if pyEndsWith path "/" then path ++ nm
          else path ++ "/" ++ nm) st with
        | (st1, some e) => (st1, some e)
        | (st1, none) => introKids go path rest st1).1)
      cases hg : go (if pyEndsWith path "/" then path ++ nm else path ++ "/" ++ nm) st with
      | mk st1 exc =>
        have hf : ScanFrame st st1 := by
          have h0 := hgo (if pyEndsWith path "/" then path ++ nm else path ++ "/" ++ nm) st
          rw [hg] at h0
          exact h0
        cases exc with
        | some e => exact hf
        | none => exact scanFrame_trans hf (ih st1)

theorem introspect_scanFrame (bus : Bus) (service : String) (di : Int) (pub : Bool) :
    ∀ (fuel : Nat) (path : String) (st : St),
      ScanFrame st (introspect bus service di pub fuel path st).1 := by
  intro fuel
  induction fuel with
  | zero => intro path st; exact scanFrame_refl st
  | succ f ih =>
    intro path st
    unfold introspect
    cases bus.introspectXml service path with
    | error e => exact scanFrame_refl st
    | ok tree =>
      show ScanFrame st ((if tree.nodes.isEmpty = true
        then introLeaf bus service di pub path tree.ifaces st
        else introKids (fun p s => introspect bus service di pub f p s)
          path tree.nodes st).1)
      by_cases hn : tree.nodes.isEmpty = true
      · rw [if_pos hn]
        exact introLeaf_scanFrame bus service di pub path tree.ifaces st
      · rw [if_neg hn]
        exact introKids_scanFrame _ (fun p s => ih p s) path tree.nodes st

theorem outerCatch_fst (r : St × Option PyExc) : (outerCatch r).1 = r.1 := by
  obtain ⟨st, exc⟩ := r
  cases exc with
  | none => rfl
  | some e =>
    cases e with
    | dbusErr en =>
      show (if transientName en = true then (st, none)
        else (st, some (PyExc.dbusErr en))).1 = st
      split <;> rfl
    | typeError => rfl
    | valueError => rfl
    | keyError => rfl
    | indexError => rfl
    | attributeError => rfl
    | recursionError => rfl
    | genericExc m => rfl

theorem scanListing_scanFrame (bus : Bus) (fuel : Nat) (service : String) (di : Int)
    (pub : Bool) (st1 : St) : ScanFrame st1 (scanListing bus fuel service di pub st1).1 := by
  unfold scanListing
  cases bus.getValue service "/" with
  | error e =>
    show ScanFrame st1 ((if unknownObjOrMethod e = true
      then introspect bus service di pub fuel "/" st1
      else (st1, some (PyExc.dbusErr e))).1)
    by_cases hu : unknownObjOrMethod e = true
    · rw [if_pos hu]
      exact introspect_scanFrame bus service di pub fuel "/" st1
    · rw [if_neg hu]
      exact scanFrame_refl st1
  | ok items =>
    cases items with
    | vdict kvs => exact scanItems_scanFrame service di pub kvs st1
    | vnull => exact scanFrame_refl st1
    | vbool b => exact scanFrame_refl st1
    | vint n => exact scanFrame_refl st1
    | vstr s => exact scanFrame_refl st1
    | vlist xs => exact scanFrame_refl st1

theorem scanService_scanFrame (bus : Bus) (fuel : Nat) (st : St) (service : String)
    (pub : Bool) : ScanFrame st (scanService bus fuel st service pub).1 := by
  unfold scanService
  rw [outerCatch_fst]
  unfold scanBody
  cases diResolve bus service with
  | error e => exact scanFrame_refl st
  | ok di =>
    show ScanFrame st ((match get_short_service_name service di with
      | Except.error e => (st, some e)
      | Except.ok short =>
        scanListing bus fuel service di pub
          { st with services := dset st.services short service }).1)
    cases get_short_service_name service di with
    | error e => exact scanFrame_refl st
    | ok short =>
      have hf1 : ScanFrame st { st with services := dset st.services short service } :=
        ⟨⟨[], (List.append_nil st.topics).symm⟩, rfl, fun h => h⟩
      exact scanFrame_trans hf1 (scanListing_scanFrame bus fuel service di pub _)

/-- C2 (amended): when both owners of a vendor-prefixed name are
non-empty, only the appearance path runs: the handler is exactly the
re-scan of the name (with publishing enabled) followed -- when the scan
does not raise -- by the registration of the new owner handle; a
non-transient exception from the re-scan propagates before the
registration.  No disappearance handling happens: no mirror entry is
removed (the mirror table is only extended), no tombstone is enqueued,
and the oldowner handle entry is left untouched. -/
theorem c2_swap_is_appearance_only (bus : Bus) (fuel : Nat) (st : St)
    (name oldowner newowner : String)
    (hpre : pyStartsWith name ServicePrefixStr = true)
    (hnew : newowner ≠ "") (hdiff : oldowner ≠ newowner) :
    (nameOwnerChanged bus fuel st name oldowner newowner
      = (match scanService bus fuel st name true with
         | (st1, some e) => (st1, some e)
         | (st1, none) =>
           ({ st1 with serviceIds := dset st1.serviceIds newowner name }, none))) ∧
    (∃ l, (nameOwnerChanged bus fuel st name oldowner newowner).1.topics
        = st.topics ++ l) ∧
    (NoTomb st → NoTomb (nameOwnerChanged bus fuel st name oldowner newowner).1) ∧
    dget (nameOwnerChanged bus fuel st name oldowner newowner).1.serviceIds oldowner
      = dget st.serviceIds oldowner ∧
    ((scanService bus fuel st name true).2 = none →
      dget (nameOwnerChanged bus fuel st name oldowner newowner).1.serviceIds newowner
        = some name) := by
  have hbranch : nameOwnerChanged bus fuel st name oldowner newowner
      = (match scanService bus fuel st name true with
         | (st1, some e) => (st1, some e)
         | (st1, none) =>
           ({ st1 with serviceIds := dset st1.serviceIds newowner name }, none)) := by
    unfold nameOwnerChanged
    rw [if_neg (by simp [hpre]), if_pos hnew]
  cases hscan : scanService bus fuel st name true with
  | mk st1 exc =>
    have hframe : ScanFrame st st1 := by
      have h0 := scanService_scanFrame bus fuel st name true
      rw [hscan] at h0
      exact h0
    rcases hframe with ⟨⟨l, hl⟩, hids, hq⟩
    have hna : nameOwnerChanged bus fuel st name oldowner newowner
        = (match (st1, exc) with
           | (st1, some e) => (st1, some e)
           | (st1, none) =>
             ({ st1 with serviceIds := dset st1.serviceIds newowner name }, none)) := by
      rw [hbranch, hscan]
    cases exc with
    | some e =>
      have hr : nameOwnerChanged bus fuel st name oldowner newowner = (st1, some e) := hna
      refine ⟨hna, ⟨l, by rw [hr]; exact hl⟩, fun hnt => by rw [hr]; exact hq hnt,
        by rw [hr]; exact congrArg (fun d => dget d oldowner) hids, ?_⟩
      intro hexc
      simp at hexc
    | none =>
      have hr : nameOwnerChanged bus fuel st name oldowner newowner
          = ({ st1 with serviceIds := dset st1.serviceIds newowner name }, none) := hna
      refine ⟨hna, ⟨l, by rw [hr]; exact hl⟩, fun hnt => by rw [hr]; exact hq hnt,
        ?_, ?_⟩
      · rw [hr]
        show dget (dset st1.serviceIds newowner name) oldowner = dget st.serviceIds oldowner
        rw [dget_dset_ne st1.serviceIds newowner oldowner name hdiff, hids]
      · intro hexc
        rw [hr]
        exact dget_dset_self st1.serviceIds newowner name

theorem c2_swap_witness :
    pyStartsWith svcB ServicePrefixStr = true ∧ (":1.9" : String) ≠ "" ∧
    (":1.5" : String) ≠ ":1.9" ∧
    ((nameOwnerChanged busNone 5 st1c svcB ":1.5" ":1.9"
      = (match scanService busNone 5 st1c svcB true with
         | (st1, some e) => (st1, some e)
         | (st1, none) =>
           ({ st1 with serviceIds := dset st1.serviceIds ":1.9" svcB }, none))) ∧
     (∃ l, (nameOwnerChanged busNone 5 st1c svcB ":1.5" ":1.9").1.topics
        = st1c.topics ++ l) ∧
     (NoTomb st1c → NoTomb (nameOwnerChanged busNone 5 st1c svcB ":1.5" ":1.9").1) ∧
     dget (nameOwnerChanged busNone 5 st1c svcB ":1.5" ":1.9").1.serviceIds ":1.5"
       = dget st1c.serviceIds ":1.5" ∧
     ((scanService busNone 5 st1c svcB true).2 = none →
       dget (nameOwnerChanged busNone 5 st1c svcB ":1.5" ":1.9").1.serviceIds ":1.9"
         = some svcB)) :=
  ⟨by decide, by decide, by decide,
    c2_swap_is_appearance_only busNone 5 st1c svcB ":1.5" ":1.9" (by decide)
      (by decide) (by decide)⟩

/-! ### Witness state for claim C9 -/

def svcV : String := "com.victronenergy.vebus"

/-- A bridge state that knows the vebus service but has no mirror entry
for the blocked tunnel path. -/
def st9c : St :=
  { initSt "pid" with
    services := [("vebus/261", svcV)]
    serviceIds := [(":1.7", svcV)]
    socketWatch := true }

theorem c9_witness :
    dget st9c.serviceIds ":1.7" = some svcV ∧
    pyStartsWith svcV ServicePrefixStr = true ∧
    pyStartsWith "/Interfaces/Mk2/Tunnel" "/" = true ∧
    (svcType svcV, "/Interfaces/Mk2/Tunnel") ∈ blocked_items ∧
    dget st9c.topics (svcV ++ "/Interfaces/Mk2/Tunnel") = none ∧
    st9c.services.find? (fun e => e.2 == svcV) = some ("vebus/261", svcV) ∧
    (pySplit "vebus/261" '/').get? 1 = some "261" ∧
    onValueChanged st9c ":1.7" "/Interfaces/Mk2/Tunnel" [("Value", .vint 1)]
      = (st9c, some .keyError) :=
  ⟨rfl, by decide, by decide, by decide, rfl, rfl, by decide,
    c9_blocked_signal_keyerror st9c ":1.7" "/Interfaces/Mk2/Tunnel" svcV
      [("Value", .vint 1)] ("vebus/261", svcV) "261" rfl (by decide) (by decide)
      (by decide) rfl rfl (by decide)⟩

/-! ### Invariants of reachable states (claims C6, C7, C8) -/

/-- A well-formed vendor service name: vendor-prefixed and (as D-Bus
guarantees for every bus name) free of slashes. -/
def SvcOK (s : String) : Prop :=
  pyStartsWith s ServicePrefixStr = true ∧ noSlash s = true

/-- Shape of a mirror entry: the uid splits into a service name and a
slash-led path, the topic is the one minted by `_add_item` for that
split, and the (service type, path) pair is not blocked. -/
def EntryOK (sysId uid topic : String) : Prop :=
  ∃ s di p, SvcOK s ∧ pyStartsWith p "/" = true ∧ uid = s ++ p ∧
    topic = mkTopic sysId (svcType s) di p ∧ (svcType s, p) ∉ blocked_items

/-- The state invariant: every mirror entry is well-shaped and
unblocked, every registry and owner-handle record names a well-formed
vendor service, and no tombstone is ever pending for a topic ending in
`/system/0/Serial`. -/
structure Inv (st : St) : Prop where
  topicsOK : ∀ e ∈ st.topics, EntryOK st.systemId e.1 e.2
  servicesOK : ∀ e ∈ st.services, SvcOK e.2
  ownersOK : ∀ e ∈ st.serviceIds, SvcOK e.2
  queueOK : ∀ e ∈ st.queue, e.2 = (none : Option V) →
    pyEndsWith e.1 "/system/0/Serial" = false

theorem initSt_inv (sysId : String) : Inv (initSt sysId) := by
  refine ⟨?_, ?_, ?_, ?_⟩ <;> intro e he <;> cases he

theorem publish_inv {st : St} (hinv : Inv st) (t : String) (v : V) :
    Inv (publish st t v) := by
  unfold publish
  split
  · exact hinv
  · refine ⟨hinv.topicsOK, hinv.servicesOK, hinv.ownersOK, fun e he h2 => ?_⟩
    rcases mem_dset he with he | he
    · rw [he] at h2; cases h2
    · exact hinv.queueOK e he h2

theorem unpublish_inv {st : St} (hinv : Inv st) (t : String) :
    Inv (unpublish st t) := by
  unfold unpublish
  split
  · exact hinv
  · split
    next hser => exact hinv
    next hser =>
      refine ⟨hinv.topicsOK, hinv.servicesOK, hinv.ownersOK, fun e he h2 => ?_⟩
      rcases mem_dset he with he | he
      · rw [he]
        cases hb : pyEndsWith t "/system/0/Serial" with
        | false => rfl
        | true => exact absurd hb hser
      · exact hinv.queueOK e he h2

theorem pyStartsWith_slash_prepend (p : String) : pyStartsWith ("/" ++ p) "/" = true := by
  unfold pyStartsWith
  rw [data_append_eq, List.isPrefixOf_iff_prefix]
  exact ⟨p.data, rfl⟩

theorem normPath_slash (p : String) :
    pyStartsWith (if pyStartsWith p "/" then p else "/" ++ p) "/" = true := by
  by_cases hp : pyStartsWith p "/" = true
  · rw [if_pos hp]; exact hp
  · rw [if_neg hp]; exact pyStartsWith_slash_prepend p

theorem addItem_cases' (st : St) (s di p : String) (v : V)
    (hpre : pyStartsWith s ServicePrefixStr = true) :
    (∃ r0, addItem st s di p v = .ok (st, r0)) ∨
    (∃ p', p' = (if pyStartsWith p "/" then p else "/" ++ p) ∧
      dget st.topics (s ++ p') = none ∧ (svcType s, p') ∉ blocked_items ∧
      addItem st s di p v
        = .ok ({ st with
                 topics := dset st.topics (s ++ p') (mkTopic st.systemId (svcType s) di p')
                 values := dset st.values (mkTopic st.systemId (svcType s) di p') v },
               some (mkTopic st.systemId (svcType s) di p'))) := by
  unfold addItem
  cases hd : dget st.topics (s ++ (if pyStartsWith p "/" then p else "/" ++ p)) with
  | some r0 =>
    left
    exact ⟨some r0, by simp [hd]⟩
  | none =>
    by_cases hb : (svcType s, if pyStartsWith p "/" then p else "/" ++ p) ∈ blocked_items
    · left
      exact ⟨none, by simp [hd, get_service_type_ok hpre, hb]⟩
    · right
      exact ⟨if pyStartsWith p "/" then p else "/" ++ p, rfl, hd, hb,
        by simp [hd, get_service_type_ok hpre, hb, mkTopic]⟩

theorem addItem_inv {st st' : St} {s di p : String} {v : V} {r : Option String}
    (hsvc : SvcOK s) (hinv : Inv st)
    (h : addItem st s di p v = .ok (st', r)) : Inv st' := by
  rcases addItem_cases' st s di p v hsvc.1 with ⟨r0, he⟩ | ⟨p', hp', hd, hb, he⟩
  · rw [he] at h
    injection h with h1
    have hst : st = st' := congrArg Prod.fst h1
    rw [← hst]
    exact hinv
  · rw [he] at h
    injection h with h1
    have hst : st' = { st with
        topics := dset st.topics (s ++ p') (mkTopic st.systemId (svcType s) di p')
        values := dset st.values (mkTopic st.systemId (svcType s) di p') v } :=
      (congrArg Prod.fst h1).symm
    rw [hst]
    refine ⟨fun e he2 => ?_, hinv.servicesOK, hinv.ownersOK, hinv.queueOK⟩
    rcases mem_dset he2 with he2 | he2
    · rw [he2]
      refine ⟨s, di, p', hsvc, ?_, rfl, rfl, hb⟩
      rw [hp']
      exact normPath_slash p
    · exact hinv.topicsOK e he2

theorem values_set_inv {st : St} (hinv : Inv st) (t : String) (v : V) :
    Inv { st with values := dset st.values t v } :=
  ⟨hinv.topicsOK, hinv.servicesOK, hinv.ownersOK, hinv.queueOK⟩

theorem applyChange_inv {st : St} (hinv : Inv st) (topic : String)
    (changes : List (String × V)) : Inv (applyChange st topic changes).1 := by
  unfold applyChange
  cases dget changes "Value" with
  | none => exact hinv
  | some value => exact publish_inv (values_set_inv hinv topic value) topic value

theorem serviceQueueGo_inv :
    ∀ (n : Nat) (st : St) (acc : List (String × Option V)), Inv st →
      Inv (serviceQueueGo n st acc).1 := by
  intro n
  induction n with
  | zero => intro st acc h; exact h
  | succ m ih =>
    intro st acc h
    unfold serviceQueueGo
    cases hq : st.queue with
    | nil => exact h
    | cons e rest =>
      show Inv ((serviceQueueGo m { st with queue := rest } (e :: acc)).1)
      apply ih
      exact ⟨h.topicsOK, h.servicesOK, h.ownersOK,
        fun e2 he2 => h.queueOK e2 (hq ▸ List.mem_cons_of_mem _ he2)⟩

theorem foldl_pub_inv :
    ∀ (l : List String) (s : St), Inv s →
      Inv (l.foldl (fun s t =>
        match dget s.values t with
        | some v => publish s t v
        | none => s) s) := by
  intro l
  induction l with
  | nil => intro s h; exact h
  | cons x xs ih =>
    intro s h
    rw [List.foldl_cons]
    apply ih
    cases hv : dget s.values x with
    | none => exact h
    | some w =>
      show Inv (publish s x w)
      exact publish_inv h x w

theorem publishAll_inv {st : St} (hinv : Inv st) : Inv (publishAll st) := by
  unfold publishAll
  exact foldl_pub_inv _ st hinv

theorem teardownEntry_inv {st : St} (hinv : Inv st) (name : String) (e : String × String) :
    Inv (teardownEntry name st e) := by
  unfold teardownEntry
  split
  · have h1 : Inv (unpublish st e.2) := unpublish_inv hinv e.2
    exact ⟨fun e2 he2 => h1.topicsOK e2 (mem_ddel he2), h1.servicesOK, h1.ownersOK,
      h1.queueOK⟩
  · exact hinv

theorem foldl_teardown_inv (name : String) :
    ∀ (l : List (String × String)) (s : St), Inv s →
      Inv (l.foldl (teardownEntry name) s) := by
  intro l
  induction l with
  | nil => intro s h; exact h
  | cons e rest ih =>
    intro s h
    rw [List.foldl_cons]
    exact ih _ (teardownEntry_inv h name e)

theorem scanItems_inv {service : String} (hsvc : SvcOK service) (di : Int) (pub : Bool) :
    ∀ (kvs : List (String × V)) (st : St), Inv st →
      Inv (scanItems service di pub kvs st).1 := by
  intro kvs
  induction kvs with
  | nil => intro st h; exact h
  | cons kv rest ih =>
    intro st h
    obtain ⟨p0, v0⟩ := kv
    unfold scanItems
    cases ha : addItem st service (toString di) p0 v0 with
    | error e => exact h
    | ok pr =>
      obtain ⟨st1, topicR⟩ := pr
      have h1 : Inv st1 := addItem_inv hsvc h ha
      cases topicR with
      | none => exact ih st1 h1
      | some t =>
        show Inv ((scanItems service di pub rest
          (if pub = true then publish st1 t v0 else st1)).1)
        by_cases hp : pub = true
        · rw [if_pos hp]
          exact ih _ (publish_inv h1 t v0)
        · rw [if_neg hp]
          exact ih st1 h1

theorem introLeaf_inv (bus : Bus) {service : String} (hsvc : SvcOK service) (di : Int)
    (pub : Bool) (path : String) :
    ∀ (ifs : List (Option String)) (st : St), Inv st →
      Inv (introLeaf bus service di pub path ifs st).1 := by
  intro ifs
  induction ifs with
  | nil => intro st h; exact h
  | cons ifname rest ih =>
    intro st h
    unfold introLeaf
    by_cases hi : ifname = some "com.victronenergy.BusItem"
    · rw [if_pos (by simp [hi])]
      cases bus.getValue service path with
      | error e => exact h
      | ok v =>
        show Inv ((match addItem st service (toString di) path v with
          | Except.error e => (st, some e)
          | Except.ok (st1, topicR) =>
            introLeaf bus service di pub path rest
              (match topicR with
                | some t => if pub = true then publish st1 t v else st1
                | none => st1)).1)
        cases ha : addItem st service (toString di) path v with
        | error e => exact h
        | ok pr =>
          obtain ⟨st1, topicR⟩ := pr
          have h1 : Inv st1 := addItem_inv hsvc h ha
          cases topicR with
          | none => exact ih st1 h1
          | some t =>
            show Inv ((introLeaf bus service di pub path rest
              (if pub = true then publish st1 t v else st1)).1)
            by_cases hp : pub = true
            · rw [if_pos hp]
              exact ih _ (publish_inv h1 t v)
            · rw [if_neg hp]
              exact ih st1 h1
    · rw [if_neg (by simp [hi])]
      exact ih st h

theorem introKids_inv (go : String → St → St × Option PyExc)
    (hgo : ∀ p s, Inv s → Inv (go p s).1) (path : String) :
    ∀ (ns : List (Option String)) (st : St), Inv st →
      Inv (introKids go path ns st).1 := by
  intro ns
  induction ns with
  | nil => intro st h; exact h
  | cons n? rest ih =>
    intro st h
    unfold introKids
    cases n? with
    | none => exact ih st h
    | some nm =>
      show Inv ((match go (if pyEndsWith path "/" then path ++ nm
          else path ++ "/" ++ nm) st with
        | (st1, some e) => (st1, some e)
        | (st1, none) => introKids go path rest st1).1)
      cases hg : go (if pyEndsWith path "/" then path ++ nm else path ++ "/" ++ nm) st with
      | mk st1 exc =>
        have h1 : Inv st1 := by
          have h0 := hgo (if pyEndsWith path "/" then path ++ nm else path ++ "/" ++ nm) st h
          rw [hg] at h0
          exact h0
        cases exc with
        | some e => exact h1
        | none => exact ih st1 h1

theorem introspect_inv (bus : Bus) {service : String} (hsvc : SvcOK service) (di : Int)
    (pub : Bool) :
    ∀ (fuel : Nat) (path : String) (st : St), Inv st →
      Inv (introspect bus service di pub fuel path st).1 := by
  intro fuel
  induction fuel with
  | zero => intro path st h; exact h
  | succ f ih =>
    intro path st h
    unfold introspect
    cases bus.introspectXml service path with
    | error e => exact h
    | ok tree =>
      show Inv ((if tree.nodes.isEmpty = true
        then introLeaf bus service di pub path tree.ifaces st
        else introKids (fun p s => introspect bus service di pub f p s)
          path tree.nodes st).1)
      by_cases hn : tree.nodes.isEmpty = true
      · rw [if_pos hn]
        exact introLeaf_inv bus hsvc di pub path tree.ifaces st h
      · rw [if_neg hn]
        exact introKids_inv _ (fun p s hs => ih p s hs) path tree.nodes st h

theorem scanListing_inv (bus : Bus) (fuel : Nat) {service : String} (hsvc : SvcOK service)
    (di : Int) (pub : Bool) {st1 : St} (h : Inv st1) :
    Inv (scanListing bus fuel service di pub st1).1 := by
  unfold scanListing
  cases bus.getValue service "/" with
  | error e =>
    show Inv ((if unknownObjOrMethod e = true
      then introspect bus service di pub fuel "/" st1
      else (st1, some (PyExc.dbusErr e))).1)
    by_cases hu : unknownObjOrMethod e = true
    · rw [if_pos hu]
      exact introspect_inv bus hsvc di pub fuel "/" st1 h
    · rw [if_neg hu]
      exact h
  | ok items =>
    cases items with
    | vdict kvs => exact scanItems_inv hsvc di pub kvs st1 h
    | vnull => exact h
    | vbool b => exact h
    | vint n => exact h
    | vstr s => exact h
    | vlist xs => exact h

theorem scanService_inv {st : St} {service : String} (hsvc : SvcOK service) (hinv : Inv st)
    (bus : Bus) (fuel : Nat) (pub : Bool) :
    Inv (scanService bus fuel st service pub).1 := by
  unfold scanService
  rw [outerCatch_fst]
  unfold scanBody
  cases diResolve bus service with
  | error e => exact hinv
  | ok di =>
    show Inv ((match get_short_service_name service di with
      | Except.error e => (st, some e)
      | Except.ok short =>
        scanListing bus fuel service di pub
          { st with services := dset st.services short service }).1)
    cases get_short_service_name service di with
    | error e => exact hinv
    | ok short =>
      have h1 : Inv { st with services := dset st.services short service } := by
        refine ⟨hinv.topicsOK, fun e2 he2 => ?_, hinv.ownersOK, hinv.queueOK⟩
        rcases mem_dset he2 with he2 | he2
        · rw [he2]; exact hsvc
        · exact hinv.servicesOK e2 he2
      exact scanListing_inv bus fuel hsvc di pub h1

theorem onValueChanged_inv {st : St} (hinv : Inv st) (sid path : String)
    (changes : List (String × V)) : Inv (onValueChanged st sid path changes).1 := by
  unfold onValueChanged
  cases hsid : dget st.serviceIds sid with
  | none => exact hinv
  | some service =>
    have hsvc : SvcOK service := hinv.ownersOK (sid, service) (dget_mem hsid)
    show Inv ((match dget st.topics (service ++ path) with
      | some topic => applyChange st topic changes
      | none =>
        match st.services.find? (fun e : String × String => e.2 == service) with
        | none => (st, none)
        | some shortPair =>
          match (pySplit shortPair.1 '/').get? 1 with
          | none => (st, some PyExc.indexError)
          | some di =>
            match addItem st service di path V.vnull with
            | Except.error e => (st, some e)
            | Except.ok (st1, _) =>
              match dget st1.topics (service ++ path) with
              | none => (st1, some PyExc.keyError)
              | some topic => applyChange st1 topic changes).1)
    cases dget st.topics (service ++ path) with
    | some topic => exact applyChange_inv hinv topic changes
    | none =>
      cases st.services.find? (fun e => e.2 == service) with
      | none => exact hinv
      | some shortPair =>
        show Inv ((match (pySplit shortPair.1 '/').get? 1 with
          | none => (st, some PyExc.indexError)
          | some di =>
            match addItem st service di path V.vnull with
            | Except.error e => (st, some e)
            | Except.ok (st1, _) =>
              match dget st1.topics (service ++ path) with
              | none => (st1, some PyExc.keyError)
              | some topic => applyChange st1 topic changes).1)
        cases (pySplit shortPair.1 '/').get? 1 with
        | none => exact hinv
        | some di =>
          show Inv ((match addItem st service di path V.vnull with
            | Except.error e => (st, some e)
            | Except.ok (st1, _) =>
              match dget st1.topics (service ++ path) with
              | none => (st1, some PyExc.keyError)
              | some topic => applyChange st1 topic changes).1)
          cases ha : addItem st service di path V.vnull with
          | error e => exact hinv
          | ok pr =>
            obtain ⟨st1, r⟩ := pr
            have h1 : Inv st1 := addItem_inv hsvc hinv ha
            show Inv ((match dget st1.topics (service ++ path) with
              | none => (st1, some PyExc.keyError)
              | some topic => applyChange st1 topic changes).1)
            cases dget st1.topics (service ++ path) with
            | none => exact h1
            | some topic => exact applyChange_inv h1 topic changes

theorem getUidByTopic_service {st : St} {topic service : String} {di : Int} {path : String}
    (h : getUidByTopic st topic = .ok (some service, di, path)) :
    ∃ key, dget st.services key = some service := by
  unfold getUidByTopic at h
  split at h
  · split at h
    · cases h
    · injection h with h1
      have h2 : dget st.services _ = some service := congrArg Prod.fst h1
      exact ⟨_, h2⟩
  · cases h

theorem handleRead_inv {st : St} (hinv : Inv st) (bus : Bus) (topic : String) :
    Inv (handleRead bus st topic).1 := by
  unfold handleRead
  cases hp : getUidByTopic st topic with
  | error e => exact hinv
  | ok triple =>
    obtain ⟨osvc, di, path⟩ := triple
    cases osvc with
    | none => exact hinv
    | some service =>
      have hsvc : SvcOK service := by
        rcases getUidByTopic_service hp with ⟨key, hk⟩
        exact hinv.servicesOK (key, service) (dget_mem hk)
      show Inv ((match bus.getValue service ("/" ++ path) with
        | Except.error e => (st, some (PyExc.dbusErr e))
        | Except.ok value =>
          match addItem st service (toString di) path value with
          | Except.error e => (st, some e)
          | Except.ok (st1, topicR) =>
            if topicR == some topic then (publish st1 topic value, none)
            else (st1, none)).1)
      cases bus.getValue service ("/" ++ path) with
      | error e => exact hinv
      | ok value =>
        show Inv ((match addItem st service (toString di) path value with
          | Except.error e => (st, some e)
          | Except.ok (st1, topicR) =>
            if topicR == some topic then (publish st1 topic value, none)
            else (st1, none)).1)
        cases ha : addItem st service (toString di) path value with
        | error e => exact hinv
        | ok pr =>
          obtain ⟨st1, topicR⟩ := pr
          have h1 : Inv st1 := addItem_inv hsvc hinv ha
          show Inv ((if topicR == some topic then (publish st1 topic value, none)
            else (st1, none)).1)
          by_cases hc : (topicR == some topic) = true
          · rw [if_pos hc]
            exact publish_inv h1 topic value
          · rw [if_neg hc]
            exact h1

theorem nameOwnerChanged_inv {st : St} (hinv : Inv st) (bus : Bus) (fuel : Nat)
    (name oldowner newowner : String) (hn : noSlash name = true) :
    Inv (nameOwnerChanged bus fuel st name oldowner newowner).1 := by
  unfold nameOwnerChanged
  by_cases hpre : pyStartsWith name ServicePrefixStr = true
  · rw [if_neg (by simp [hpre])]
    by_cases hnew : newowner ≠ ""
    · rw [if_pos hnew]
      cases hs : scanService bus fuel st name true with
      | mk st1 exc =>
        have h1 : Inv st1 := by
          have h0 := scanService_inv ⟨hpre, hn⟩ hinv bus fuel true
          rw [hs] at h0
          exact h0
        cases exc with
        | some e => exact h1
        | none =>
          refine ⟨h1.topicsOK, h1.servicesOK, fun e2 he2 => ?_, h1.queueOK⟩
          rcases mem_dset he2 with he2 | he2
          · rw [he2]
            exact ⟨hpre, hn⟩
          · exact h1.ownersOK e2 he2
    · rw [if_neg hnew]
      by_cases hold : oldowner ≠ ""
      · rw [if_pos hold]
        have h1 : Inv (st.topics.foldl (teardownEntry name) st) :=
          foldl_teardown_inv name st.topics st hinv
        have h2 : ∀ s : St, Inv s →
            Inv (if (dget s.services name).isSome
              then { s with services := ddel s.services name } else s) := by
          intro s hsv
          split
          · exact ⟨hsv.topicsOK, fun e he => hsv.servicesOK e (mem_ddel he),
              hsv.ownersOK, hsv.queueOK⟩
          · exact hsv
        have h3 : ∀ s : St, Inv s →
            Inv (if (dget s.serviceIds oldowner).isSome
              then { s with serviceIds := ddel s.serviceIds oldowner } else s) := by
          intro s hsv
          split
          · exact ⟨hsv.topicsOK, hsv.servicesOK,
              fun e he => hsv.ownersOK e (mem_ddel he), hsv.queueOK⟩
          · exact hsv
        exact h3 _ (h2 _ h1)
      · rw [if_neg hold]
        exact hinv
  · rw [if_pos (by simp [hpre])]
    exact hinv

/-! ### The event-loop step relation and reachability -/

/-- One event-loop callback of the bridge.  The side conditions are
environment facts guaranteed by D-Bus and by the code paths feeding the
steps: bus names never contain a slash, and the bootstrap loop registers
and scans only names it has filtered on the vendor prefix. -/
inductive Step : St → St → Prop where
  | owner {st : St} (bus : Bus) (fuel : Nat) (name oldowner newowner : String)
      (hn : noSlash name = true) :
      Step st (nameOwnerChanged bus fuel st name oldowner newowner).1
  | scan {st : St} (bus : Bus) (fuel : Nat) (service : String) (pub : Bool)
      (h1 : pyStartsWith service ServicePrefixStr = true) (h2 : noSlash service = true) :
      Step st (scanService bus fuel st service pub).1
  | register {st : St} (owner service : String)
      (h1 : pyStartsWith service ServicePrefixStr = true) (h2 : noSlash service = true) :
      Step st { st with serviceIds := dset st.serviceIds owner service }
  | valueChanged {st : St} (sid path : String) (changes : List (String × V)) :
      Step st (onValueChanged st sid path changes).1
  | readReq {st : St} (bus : Bus) (topic : String) :
      Step st (handleRead bus st topic).1
  | drain {st : St} (n : Nat) : Step st (serviceQueue st n).1
  | connectAll {st : St} : Step st (publishAll st)
  | unpubAll {st : St} : Step st (unpublishAll st).1
  | setSocket {st : St} (b : Bool) : Step st { st with socketWatch := b }

/-- States reachable from a freshly constructed bridge. -/
inductive Reachable : St → Prop where
  | init (sysId : String) : Reachable (initSt sysId)
  | step {st st' : St} : Reachable st → Step st st' → Reachable st'

theorem step_inv {st st' : St} (hinv : Inv st) (h : Step st st') : Inv st' := by
  cases h with
  | owner bus fuel name oldowner newowner hn =>
    exact nameOwnerChanged_inv hinv bus fuel name oldowner newowner hn
  | scan bus fuel service pub h1 h2 => exact scanService_inv ⟨h1, h2⟩ hinv bus fuel pub
  | register owner service h1 h2 =>
    refine ⟨hinv.topicsOK, hinv.servicesOK, fun e2 he2 => ?_, hinv.queueOK⟩
    rcases mem_dset he2 with he2 | he2
    · rw [he2]
      exact ⟨h1, h2⟩
    · exact hinv.ownersOK e2 he2
  | valueChanged sid path changes => exact onValueChanged_inv hinv sid path changes
  | readReq bus topic => exact handleRead_inv hinv bus topic
  | drain n => exact serviceQueueGo_inv n st [] hinv
  | connectAll => exact publishAll_inv hinv
  | unpubAll => exact hinv
  | setSocket b => exact ⟨hinv.topicsOK, hinv.servicesOK, hinv.ownersOK, hinv.queueOK⟩

theorem reachable_inv {st : St} (h : Reachable st) : Inv st := by
  induction h with
  | init sysId => exact initSt_inv sysId
  | step hr hs ih => exact step_inv ih hs

/-! ### Reachable fixtures for the invariant witnesses -/

def st0w : St := { initSt "pid" with socketWatch := true }

def stScan : St := (scanService busA 10 st0w svcB false).1

def stGone : St := (nameOwnerChanged busA 10 stScan svcB ":1.5" "").1

theorem st0w_reachable : Reachable st0w :=
  Reachable.step (Reachable.init "pid") (Step.setSocket true)

theorem stScan_reachable : Reachable stScan :=
  Reachable.step st0w_reachable (Step.scan busA 10 svcB false (by decide) (by decide))

theorem stGone_reachable : Reachable stGone :=
  Reachable.step stScan_reachable (Step.owner busA 10 svcB ":1.5" "" (by decide))

/-! ### Claim C6 -/

/-- C6: in every reachable state, every mirror entry -- whichever path
created it (scan, introspection, change signal, or read request) --
decomposes as uid = service ++ path with a vendor-prefixed, slash-free
service name and a path beginning with '/', and maps to the topic
'N/' ++ portal id ++ '/' ++ service type ++ '/' ++ device instance ++ path. -/
theorem c6_topic_shape {st : St} (hr : Reachable st) :
    ∀ uid topic : String, (uid, topic) ∈ st.topics →
      ∃ s di p, pyStartsWith s ServicePrefixStr = true ∧ noSlash s = true ∧
        pyStartsWith p "/" = true ∧ uid = s ++ p ∧
        topic = mkTopic st.systemId (svcType s) di p := by
  intro uid topic hm
  rcases (reachable_inv hr).topicsOK (uid, topic) hm with ⟨s, di, p, hsvc, hp, hu, ht, hb⟩
  exact ⟨s, di, p, hsvc.1, hsvc.2, hp, hu, ht⟩

theorem c6_witness :
    (("com.victronenergy.battery/Dc/0/Voltage", "N/pid/battery/0/Dc/0/Voltage")
        ∈ stScan.topics) ∧
    (∃ s di p, pyStartsWith s ServicePrefixStr = true ∧ noSlash s = true ∧
      pyStartsWith p "/" = true ∧
      "com.victronenergy.battery/Dc/0/Voltage" = s ++ p ∧
      "N/pid/battery/0/Dc/0/Voltage" = mkTopic stScan.systemId (svcType s) di p) := by
  have hq : stScan.topics
      = [("com.victronenergy.battery/Dc/0/Voltage", "N/pid/battery/0/Dc/0/Voltage")] := rfl
  have hm : ("com.victronenergy.battery/Dc/0/Voltage", "N/pid/battery/0/Dc/0/Voltage")
      ∈ stScan.topics := by
    rw [hq]
    exact List.mem_singleton.mpr rfl
  exact ⟨hm, c6_topic_shape stScan_reachable _ _ hm⟩

/-! ### Claim C7 -/

/-- C7: in every reachable state, no mirror entry's (service type, path)
pair -- for the unique decomposition of its uid into a slash-free service
name and a slash-led path -- lies in the compile-time blocked set; and
`_add_item` on a blocked pair with no existing entry returns no topic and
installs nothing into the uid-to-topic and topic-to-value maps (the state
is returned unchanged). -/
theorem c7_no_blocked_entry :
    (∀ st : St, Reachable st → ∀ uid topic s p : String, (uid, topic) ∈ st.topics →
      noSlash s = true → pyStartsWith p "/" = true → uid = s ++ p →
      (svcType s, p) ∉ blocked_items) ∧
    (∀ (st : St) (s di p : String) (v : V),
      pyStartsWith s ServicePrefixStr = true →
      dget st.topics (s ++ (if pyStartsWith p "/" then p else "/" ++ p)) = none →
      ((svcType s, (if pyStartsWith p "/" then p else "/" ++ p)) ∈ blocked_items) →
      addItem st s di p v = .ok (st, none)) := by
  constructor
  · intro st hr uid topic s p hm hns hps huid
    rcases (reachable_inv hr).topicsOK (uid, topic) hm
      with ⟨s0, di, p0, hsvc, hp0, hu0, ht0, hb0⟩
    have heq : s0 ++ p0 = s ++ p := by
      rw [← hu0]
      exact huid
    rcases uid_split_unique heq hsvc.2 hns hp0 hps with ⟨hs, hp⟩
    rw [← hs, ← hp]
    exact hb0
  · intro st s di p v hpre hnone hblk
    unfold addItem
    simp [hnone, get_service_type_ok hpre, hblk]

theorem c7_witness :
    ((("com.victronenergy.battery/Dc/0/Voltage", "N/pid/battery/0/Dc/0/Voltage")
        ∈ stScan.topics) ∧
     noSlash svcB = true ∧ pyStartsWith "/Dc/0/Voltage" "/" = true ∧
     ("com.victronenergy.battery/Dc/0/Voltage" : String) = svcB ++ "/Dc/0/Voltage" ∧
     (svcType svcB, "/Dc/0/Voltage") ∉ blocked_items) ∧
    (pyStartsWith svcV ServicePrefixStr = true ∧
     dget st9c.topics (svcV ++ (if pyStartsWith "/Interfaces/Mk2/Tunnel" "/"
        then "/Interfaces/Mk2/Tunnel" else "/" ++ "/Interfaces/Mk2/Tunnel")) = none ∧
     ((svcType svcV, (if pyStartsWith "/Interfaces/Mk2/Tunnel" "/"
        then "/Interfaces/Mk2/Tunnel" else "/" ++ "/Interfaces/Mk2/Tunnel"))
        ∈ blocked_items) ∧
     addItem st9c svcV "261" "/Interfaces/Mk2/Tunnel" V.vnull = .ok (st9c, none)) := by
  have hq : stScan.topics
      = [("com.victronenergy.battery/Dc/0/Voltage", "N/pid/battery/0/Dc/0/Voltage")] := rfl
  have hm : ("com.victronenergy.battery/Dc/0/Voltage", "N/pid/battery/0/Dc/0/Voltage")
      ∈ stScan.topics := by
    rw [hq]
    exact List.mem_singleton.mpr rfl
  refine ⟨⟨hm, by decide, by decide, by decide,
    c7_no_blocked_entry.1 stScan stScan_reachable _ _ svcB "/Dc/0/Voltage" hm
      (by decide) (by decide) (by decide)⟩,
    by decide, rfl, by decide,
    c7_no_blocked_entry.2 st9c svcV "261" "/Interfaces/Mk2/Tunnel" V.vnull
      (by decide) rfl (by decide)⟩

/-! ### Claim C8 -/

/-- C8: in every reachable state no tombstone (a pending `None` payload)
is enqueued for a topic ending in '/system/0/Serial' -- including the
states produced by service-disappearance teardown and by unpublish-all --
and no drain of the queue ever performs a tombstone publish for such a
topic. -/
theorem c8_no_serial_tombstone {st : St} (hr : Reachable st) :
    (∀ t : String, (t, (none : Option V)) ∈ st.queue →
      pyEndsWith t "/system/0/Serial" = false) ∧
    (∀ (n : Nat) (t : String), (t, (none : Option V)) ∈ (serviceQueue st n).2.1 →
      pyEndsWith t "/system/0/Serial" = false) := by
  have hq := (reachable_inv hr).queueOK
  refine ⟨fun t hm => hq (t, none) hm rfl, fun n t hm => ?_⟩
  exact hq (t, none) (serviceQueue_pub_mem hm) rfl

theorem c8_witness :
    (("N/pid/battery/0/Dc/0/Voltage", (none : Option V)) ∈ stGone.queue) ∧
    pyEndsWith "N/pid/battery/0/Dc/0/Voltage" "/system/0/Serial" = false := by
  have hq : stGone.queue = [("N/pid/battery/0/Dc/0/Voltage", (none : Option V))] := rfl
  have hm : ("N/pid/battery/0/Dc/0/Voltage", (none : Option V)) ∈ stGone.queue := by
    rw [hq]
    exact List.mem_singleton.mpr rfl
  exact ⟨hm, (c8_no_serial_tombstone stGone_reachable).1 _ hm⟩

end DbusMqtt
